import Mathlib

/-!
# ofCairoRenderer: a shallow embedding

The renderer in `libs/openFrameworks/graphics/ofCairoRenderer.cpp` is embedded as
pure functions over an explicit renderer state.  Finite floats are exact
rationals (`XFloat` adds the values that are not finite, where a division by zero
decides a claim), the cairo context is the current transformation matrix together
with the list of the drawing calls issued so far, and `std::stack` / `std::deque`
are lists.
-/

namespace ofCairoRenderer

/-! ## Vectors and matrices -/

/-- A `glm::vec3` with exact components. -/
structure Vec3 where
  x : ℚ
  y : ℚ
  z : ℚ
deriving DecidableEq, Repr

instance : Inhabited Vec3 := ⟨⟨0, 0, 0⟩⟩

instance : Add Vec3 := ⟨fun a b => ⟨a.x + b.x, a.y + b.y, a.z + b.z⟩⟩
instance : Sub Vec3 := ⟨fun a b => ⟨a.x - b.x, a.y - b.y, a.z - b.z⟩⟩
/-- Scaling of a vector by a scalar written on the right, `v * s`. -/
instance : HMul Vec3 ℚ Vec3 := ⟨fun a s => ⟨a.x * s, a.y * s, a.z * s⟩⟩

/-- A `glm::vec4`. -/
structure Vec4 where
  x : ℚ
  y : ℚ
  z : ℚ
  w : ℚ
deriving DecidableEq, Repr

instance : Add Vec4 := ⟨fun a b => ⟨a.x + b.x, a.y + b.y, a.z + b.z, a.w + b.w⟩⟩
instance : HMul Vec4 ℚ Vec4 := ⟨fun a s => ⟨a.x * s, a.y * s, a.z * s, a.w * s⟩⟩

/-- A `glm::mat4`, stored by columns as glm does (`m[i]` is column `i`). -/
structure Mat4 where
  c0 : Vec4
  c1 : Vec4
  c2 : Vec4
  c3 : Vec4
deriving DecidableEq, Repr

/-- The matrix `glm::mat4(1)`. -/
def Mat4.identity : Mat4 :=
  ⟨⟨1, 0, 0, 0⟩, ⟨0, 1, 0, 0⟩, ⟨0, 0, 1, 0⟩, ⟨0, 0, 0, 1⟩⟩

/-- The product `m * v` of glm: the combination of the columns of `m`. -/
def Mat4.mulVec (m : Mat4) (v : Vec4) : Vec4 :=
  m.c0 * v.x + m.c1 * v.y + m.c2 * v.z + m.c3 * v.w

/-- The product `a * b` of glm: column `j` is `a * b[j]`. -/
def Mat4.mul (a b : Mat4) : Mat4 :=
  ⟨a.mulVec b.c0, a.mulVec b.c1, a.mulVec b.c2, a.mulVec b.c3⟩

/-- The function `glm::translate(m, v)`: only the last column changes. -/
def glm_translate (m : Mat4) (v : Vec3) : Mat4 :=
  { m with c3 := m.c0 * v.x + m.c1 * v.y + m.c2 * v.z + m.c3 }

/-- The function `glm::scale(m, v)`: the first three columns are scaled. -/
def glm_scale (m : Mat4) (v : Vec3) : Mat4 :=
  { m with c0 := m.c0 * v.x, c1 := m.c1 * v.y, c2 := m.c2 * v.z }

/-- A `cairo_matrix_t`: the affine map
`(x, y) ↦ (xx * x + xy * y + x0, yx * x + yy * y + y0)`. -/
structure cairo_matrix_t where
  xx : ℚ
  yx : ℚ
  xy : ℚ
  yy : ℚ
  x0 : ℚ
  y0 : ℚ
deriving DecidableEq, Repr

/-- The matrix set by `cairo_matrix_init_identity`. -/
def cairo_matrix_init_identity : cairo_matrix_t := ⟨1, 0, 0, 1, 0, 0⟩

/-- The matrix set by `cairo_matrix_init_translate`. -/
def cairo_matrix_init_translate (tx ty : ℚ) : cairo_matrix_t := ⟨1, 0, 0, 1, tx, ty⟩

/-- The matrix set by `cairo_matrix_init_scale`. -/
def cairo_matrix_init_scale (sx sy : ℚ) : cairo_matrix_t := ⟨sx, 0, 0, sy, 0, 0⟩

/-- The product `cairo_matrix_multiply(result, a, b)`: apply `a` first, then `b`. -/
def cairo_matrix_multiply (a b : cairo_matrix_t) : cairo_matrix_t :=
  { xx := a.xx * b.xx + a.yx * b.xy
    yx := a.xx * b.yx + a.yx * b.yy
    xy := a.xy * b.xx + a.yy * b.xy
    yy := a.xy * b.yx + a.yy * b.yy
    x0 := a.x0 * b.xx + a.y0 * b.xy + b.x0
    y0 := a.x0 * b.yx + a.y0 * b.yy + b.y0 }

/-- The call `cairo_matrix_translate(&m, tx, ty)`: translate first, then apply `m`. -/
def cairo_matrix_translate (m : cairo_matrix_t) (tx ty : ℚ) : cairo_matrix_t :=
  cairo_matrix_multiply (cairo_matrix_init_translate tx ty) m

/-- The call `cairo_matrix_scale(&m, sx, sy)`: scale first, then apply `m`. -/
def cairo_matrix_scale (m : cairo_matrix_t) (sx sy : ℚ) : cairo_matrix_t :=
  cairo_matrix_multiply (cairo_matrix_init_scale sx sy) m

/-- The call `cairo_matrix_transform_point`: the image of a point under `m`. -/
def cairo_matrix_transform_point (m : cairo_matrix_t) (p : ℚ × ℚ) : ℚ × ℚ :=
  (m.xx * p.1 + m.xy * p.2 + m.x0, m.yx * p.1 + m.yy * p.2 + m.y0)

/-- The numeric library the renderer links against, where it is not rational:
the trigonometric functions behind `cairo_matrix_rotate`, `glm::rotate`,
`glm::two_pi<float>()` and `ofDegToRad`. -/
structure Ext where
  cos : ℚ → ℚ
  sin : ℚ → ℚ
  glm_rotate : Mat4 → ℚ → Vec3 → Mat4
  two_pi : ℚ
  ofDegToRad : ℚ → ℚ

/-- The call `cairo_matrix_rotate(&m, radians)`: rotate first, then apply `m`. -/
def cairo_matrix_rotate (E : Ext) (m : cairo_matrix_t) (radians : ℚ) : cairo_matrix_t :=
  cairo_matrix_multiply
    ⟨E.cos radians, E.sin radians, -E.sin radians, E.cos radians, 0, 0⟩ m

/-- The constant `std::numeric_limits<float>::epsilon()`, two to the power -23. -/
def float_epsilon : ℚ := 1 / 8388608

/-! ## The cairo context and the renderer state -/

/-- The two pixel formats of `cairo_format_t` that the renderer uses. -/
inductive cairo_format_t where
  | CAIRO_FORMAT_ARGB32
  | CAIRO_FORMAT_RGB24
deriving DecidableEq, Repr

/-- The drawing calls the renderer issues on its cairo context.  `paint_image` is
`cairo_set_source_surface` followed by `cairo_paint`, on the image surface made by
`cairo_image_surface_create_for_data` from the bytes `data`. -/
inductive CairoCall where
  | new_path
  | move_to (x y : ℚ)
  | line_to (x y : ℚ)
  | curve_to (x1 y1 x2 y2 x3 y3 : ℚ)
  | arc (xc yc radius angle1 angle2 : ℚ)
  | arc_negative (xc yc radius angle1 angle2 : ℚ)
  | close_path
  | stroke
  | fill
  | reset_clip
  | clip
  | paint_image (format : cairo_format_t) (width height stride : Nat) (data : List Nat)
deriving DecidableEq, Repr

/-- One issued call, with the transformation matrix in force when it was issued. -/
structure Issued where
  ctm : cairo_matrix_t
  call : CairoCall
deriving DecidableEq, Repr

/-- An `ofRectangle`. -/
structure ofRectangle where
  x : ℚ
  y : ℚ
  width : ℚ
  height : ℚ
deriving DecidableEq, Repr

/-- The fields of the renderer object that the embedded functions read or write.
`isOpen` stands for `surface && cr`; `matrix` is the matrix of the cairo context
(`cairo_get_matrix` / `cairo_set_matrix`); `trace` lists the calls issued on it;
`warnings` counts the messages logged through `ofLogWarning`. -/
structure Renderer where
  isOpen : Bool
  b3D : Bool
  matrix : cairo_matrix_t
  matrixStack : List cairo_matrix_t
  modelView : Mat4
  modelViewStack : List Mat4
  projection : Mat4
  curvePoints : List Vec3
  viewportRect : ofRectangle
  originalViewport : ofRectangle
  bFill : Bool
  lineWidth : ℚ
  trace : List Issued
  warnings : Nat
deriving DecidableEq, Repr

/-- A call on the cairo context: it is recorded with the current matrix. -/
def Renderer.cairo (s : Renderer) (c : CairoCall) : Renderer :=
  { s with trace := s.trace ++ [⟨s.matrix, c⟩] }

/-! ## Transformations (`pushMatrix` ... `rotateRad`) -/

/-- The method `ofCairoRenderer::pushMatrix`. -/
def pushMatrix (s : Renderer) : Renderer :=
  if !s.isOpen then s else
  let s := { s with matrixStack := s.matrix :: s.matrixStack }
  if !s.b3D then s else
  { s with modelViewStack := s.modelView :: s.modelViewStack }

/-- The method `ofCairoRenderer::popMatrix`.  Reading the top of an empty
`std::stack` has no defined result: it is `none`. -/
def popMatrix (s : Renderer) : Option Renderer :=
  if !s.isOpen then some s else
  match s.matrixStack with
  | [] => none
  | top :: rest =>
    let s := { s with matrix := top, matrixStack := rest }
    if !s.b3D then some s else
    match s.modelViewStack with
    | [] => none
    | mv :: mvRest => some { s with modelView := mv, modelViewStack := mvRest }

/-- The method `ofCairoRenderer::translate(x, y, z)`; callers that give no `z`
pass its default 0. -/
def translate (s : Renderer) (x y z : ℚ) : Renderer :=
  if !s.isOpen then s else
  let s := { s with matrix := cairo_matrix_translate s.matrix x y }
  if !s.b3D then s else
  { s with modelView := glm_translate s.modelView ⟨x, y, z⟩ }

/-- The method `ofCairoRenderer::scale(xAmnt, yAmnt, zAmnt)` for finite amounts
(`scaleX` takes amounts that need not be finite); callers that give no `zAmnt` pass
its default 1. -/
def scale (s : Renderer) (xAmnt yAmnt zAmnt : ℚ) : Renderer :=
  if !s.isOpen then s else
  let xAmnt := if xAmnt = 0 then float_epsilon else xAmnt
  let yAmnt := if yAmnt = 0 then float_epsilon else yAmnt
  let s := { s with matrix := cairo_matrix_scale s.matrix xAmnt yAmnt }
  if !s.b3D then s else
  { s with modelView := glm_scale s.modelView ⟨xAmnt, yAmnt, zAmnt⟩ }

/-- The method `ofCairoRenderer::rotateRad(radians, vecX, vecY, vecZ)`. -/
def rotateRad (E : Ext) (s : Renderer) (radians vecX vecY vecZ : ℚ) : Renderer :=
  if !s.isOpen then s else
  let s := if vecZ = 1 then { s with matrix := cairo_matrix_rotate E s.matrix radians } else s
  if !s.b3D then s else
  { s with modelView := E.glm_rotate s.modelView radians ⟨vecX, vecY, vecZ⟩ }

/-! ## Path commands (`draw(const ofPath::Command &)`) -/

/-- The enumeration `ofPath::Command::Type`. -/
inductive CommandType where
  | moveTo | lineTo | curveTo | bezierTo | quadBezierTo | arc | arcNegative | close
deriving DecidableEq, Repr

/-- An `ofPath::Command`; its field `to` is written `to_`. -/
structure Command where
  type : CommandType
  to_ : Vec3
  cp1 : Vec3
  cp2 : Vec3
  radiusX : ℚ
  radiusY : ℚ
  angleBegin : ℚ
  angleEnd : ℚ
deriving DecidableEq, Repr

/-- The first Bezier control point of the `curveTo` branch,
`p2 + (p3 - p1) * (1.0f / 6.f)`. -/
def curveCp1 (p1 p2 p3 : Vec3) : Vec3 := p2 + (p3 - p1) * ((1 : ℚ) / 6)

/-- The second Bezier control point of the `curveTo` branch,
`p3 + (p2 - p4) * (1.0f / 6.f)`. -/
def curveCp2 (p2 p3 p4 : Vec3) : Vec3 := p3 + (p2 - p4) * ((1 : ℚ) / 6)

/-- The body shared by the `arc` and `arcNegative` branches, `mk` being the cairo
arc call of the branch. -/
def drawArc (E : Ext) (s : Renderer) (command : Command)
    (mk : ℚ → ℚ → ℚ → ℚ → ℚ → CairoCall) : Option Renderer :=
  let s := { s with curvePoints := [] }
  let call := mk command.to_.x command.to_.y command.radiusX
    (E.ofDegToRad command.angleBegin) (E.ofDegToRad command.angleEnd)
  if command.radiusX ≠ command.radiusY then
    let ellipse_ratio := command.radiusY / command.radiusX
    let s := pushMatrix s
    let s := translate s 0 (-command.to_.y * ellipse_ratio) 0
    let s := scale s 1 ellipse_ratio 1
    let s := translate s 0 (command.to_.y / ellipse_ratio) 0
    let s := s.cairo call
    popMatrix s
  else
    some (s.cairo call)

/-- The `curveTo` branch: the point is appended to `curvePoints`; when that makes
four points, one Bezier segment is issued and the oldest point is dropped. -/
def drawCurveTo (s : Renderer) (command : Command) : Renderer :=
  let s := { s with curvePoints := s.curvePoints ++ [command.to_] }
  match s.curvePoints with
  | [p1, p2, p3, p4] =>
    let cp1 := curveCp1 p1 p2 p3
    let cp2 := curveCp2 p2 p3 p4
    let s := s.cairo (.curve_to cp1.x cp1.y cp2.x cp2.y p3.x p3.y)
    { s with curvePoints := [p2, p3, p4] }
  | _ => s

/-- The method `ofCairoRenderer::draw(const ofPath::Command & command)`. -/
def draw_Command (E : Ext) (s : Renderer) (command : Command) : Option Renderer :=
  if !s.isOpen then some s else
  match command.type with
  | .moveTo =>
    let s := { s with curvePoints := [] }
    some (s.cairo (.move_to command.to_.x command.to_.y))
  | .lineTo =>
    let s := { s with curvePoints := [] }
    some (s.cairo (.line_to command.to_.x command.to_.y))
  | .curveTo => some (drawCurveTo s command)
  | .bezierTo =>
    let s := { s with curvePoints := [] }
    some (s.cairo (.curve_to command.cp1.x command.cp1.y command.cp2.x command.cp2.y
      command.to_.x command.to_.y))
  | .quadBezierTo =>
    let s := { s with curvePoints := [] }
    some (s.cairo (.curve_to command.cp1.x command.cp1.y command.cp2.x command.cp2.y
      command.to_.x command.to_.y))
  | .arc => drawArc E s command CairoCall.arc
  | .arcNegative => drawArc E s command CairoCall.arc_negative
  | .close => some (s.cairo .close_path)

/-- The loop of `draw(const ofPath &)` over the commands of a path. -/
def draw_Commands (E : Ext) (s : Renderer) : List Command → Option Renderer
  | [] => some s
  | c :: cs => (draw_Command E s c).bind (fun s' => draw_Commands E s' cs)

/-- A cubic Bezier curve at parameter `t` (one coordinate). -/
def bezier (b0 b1 b2 b3 t : ℚ) : ℚ :=
  (1 - t) ^ 3 * b0 + 3 * (1 - t) ^ 2 * t * b1 + 3 * (1 - t) * t ^ 2 * b2 + t ^ 3 * b3

/-- The uniform Catmull-Rom segment between `p2` and `p3` at parameter `t`
(one coordinate). -/
def catmullRom (p1 p2 p3 p4 t : ℚ) : ℚ :=
  (1 / 2) * (2 * p2 + (p3 - p1) * t + (2 * p1 - 5 * p2 + 4 * p3 - p4) * t ^ 2
    + (-p1 + 3 * p2 - 3 * p3 + p4) * t ^ 3)

/-- A cubic Bezier curve on points, coordinate by coordinate. -/
def bezierPoint (b0 b1 b2 b3 : Vec3) (t : ℚ) : Vec3 :=
  ⟨bezier b0.x b1.x b2.x b3.x t, bezier b0.y b1.y b2.y b3.y t, bezier b0.z b1.z b2.z b3.z t⟩

/-- The uniform Catmull-Rom segment on points, coordinate by coordinate. -/
def catmullRomPoint (p1 p2 p3 p4 : Vec3) (t : ℚ) : Vec3 :=
  ⟨catmullRom p1.x p2.x p3.x p4.x t, catmullRom p1.y p2.y p3.y p4.y t,
    catmullRom p1.z p2.z p3.z p4.z t⟩

/-! ## `drawEllipse` -/

/-- The method `ofCairoRenderer::drawEllipse(x, y, z, width, height)`. -/
def drawEllipse (E : Ext) (s : Renderer) (x y _z width height : ℚ) : Option Renderer :=
  let s := s.cairo .new_path
  let ellipse_ratio := height / width
  let s := pushMatrix s
  let s := translate s 0 (-y * ellipse_ratio) 0
  let s := scale s 1 ellipse_ratio 1
  let s := translate s 0 (y / ellipse_ratio) 0
  let s := s.cairo (.arc x y (width * (1 / 2)) 0 E.two_pi)
  (popMatrix s).map fun s =>
    let s := s.cairo .close_path
    if s.bFill then s.cairo .fill else s.cairo .stroke

/-! ## Sequences of transformation calls -/

/-- A piece of a cairo path. -/
inductive Piece where
  | line (a b : ℚ × ℚ)
  | bezier (a c1 c2 b : ℚ × ℚ)
  | arc (xc yc radius angle1 angle2 : ℚ)
  | arc_negative (xc yc radius angle1 angle2 : ℚ)
deriving DecidableEq, Repr

/-- The current point of the cairo context and the first point of its current
sub-path; both are absent on an empty path. -/
structure PathState where
  current : Option (ℚ × ℚ)
  start : Option (ℚ × ℚ)
deriving DecidableEq, Repr

/-- The effect of one cairo call on the path, as the cairo manual gives it: the new
current point and the pieces appended.  `line_to` and `curve_to` without a current
point start at their first point; an arc is joined to the current point by a
line; `close_path` draws the line back to the start of the sub-path; `stroke`,
`fill`, `clip` and `new_path` leave an empty path. -/
def pathStep (E : Ext) (st : PathState) : CairoCall → PathState × List Piece
  | .new_path => (⟨none, none⟩, [])
  | .move_to x y => (⟨some (x, y), some (x, y)⟩, [])
  | .line_to x y =>
    match st.current with
    | none => (⟨some (x, y), some (x, y)⟩, [])
    | some c => (⟨some (x, y), st.start⟩, [.line c (x, y)])
  | .curve_to x1 y1 x2 y2 x3 y3 =>
    match st.current with
    | none => (⟨some (x3, y3), some (x1, y1)⟩, [.bezier (x1, y1) (x1, y1) (x2, y2) (x3, y3)])
    | some c => (⟨some (x3, y3), st.start⟩, [.bezier c (x1, y1) (x2, y2) (x3, y3)])
  | .arc xc yc r a1 a2 =>
    let b := (xc + r * E.cos a1, yc + r * E.sin a1)
    let e := (xc + r * E.cos a2, yc + r * E.sin a2)
    match st.current with
    | none => (⟨some e, some b⟩, [.arc xc yc r a1 a2])
    | some c => (⟨some e, st.start⟩, [.line c b, .arc xc yc r a1 a2])
  | .arc_negative xc yc r a1 a2 =>
    let b := (xc + r * E.cos a1, yc + r * E.sin a1)
    let e := (xc + r * E.cos a2, yc + r * E.sin a2)
    match st.current with
    | none => (⟨some e, some b⟩, [.arc_negative xc yc r a1 a2])
    | some c => (⟨some e, st.start⟩, [.line c b, .arc_negative xc yc r a1 a2])
  | .close_path =>
    match st.current, st.start with
    | some c, some s0 => (⟨some s0, some s0⟩, [.line c s0])
    | _, _ => (st, [])
  | .stroke => (⟨none, none⟩, [])
  | .fill => (⟨none, none⟩, [])
  | .reset_clip => (st, [])
  | .clip => (⟨none, none⟩, [])
  | .paint_image _ _ _ _ _ => (st, [])

/-- The pieces of the path built by a list of calls, from path state `st`. -/
def pathPieces (E : Ext) (st : PathState) : List CairoCall → List Piece
  | [] => []
  | c :: cs => (pathStep E st c).2 ++ pathPieces E (pathStep E st c).1 cs

/-- The calls issued between state `s` and a later state `s'`. -/
def issuedSince (s s' : Renderer) : List CairoCall :=
  (s'.trace.drop s.trace.length).map Issued.call

/-- The x and y of a point, as cairo receives them. -/
def Vec3.xy (p : Vec3) : ℚ × ℚ := (p.x, p.y)

/-- The Bezier calls that a run of curve points gives rise to: one for each four
consecutive points. -/
def catmullCalls : List Vec3 → List CairoCall
  | p1 :: p2 :: p3 :: p4 :: rest =>
    CairoCall.curve_to (curveCp1 p1 p2 p3).x (curveCp1 p1 p2 p3).y
      (curveCp2 p2 p3 p4).x (curveCp2 p2 p3 p4).y p3.x p3.y
      :: catmullCalls (p2 :: p3 :: p4 :: rest)
  | _ => []

/-- The point of the `k`-th command of a list (the zero vector past its end). -/
def pointAt (cmds : List Command) (k : Nat) : Vec3 :=
  (cmds.map Command.to_).getD k default

/-- The last three elements of a list (all of it when it is shorter). -/
def lastThree (l : List Vec3) : List Vec3 := l.drop (l.length - 3)

/-! ## Wireframes (`draw(vertexData, drawMode)`, `draw(ofMesh)`) -/

/-- The enumeration `ofPrimitiveMode`. -/
inductive ofPrimitiveMode where
  | OF_PRIMITIVE_TRIANGLES
  | OF_PRIMITIVE_TRIANGLE_STRIP
  | OF_PRIMITIVE_TRIANGLE_FAN
  | OF_PRIMITIVE_LINES
  | OF_PRIMITIVE_LINE_STRIP
  | OF_PRIMITIVE_LINE_LOOP
  | OF_PRIMITIVE_POINTS
deriving DecidableEq, Repr

/-- The enumeration `ofPolyRenderMode`. -/
inductive ofPolyRenderMode where
  | OF_MESH_POINTS
  | OF_MESH_WIREFRAME
  | OF_MESH_FILL
deriving DecidableEq, Repr

/-- The method `ofCairoRenderer::transform(vec)`.  (A division by zero, which in
floating point gives an infinity or a NaN, gives 0 here.) -/
def transform (s : Renderer) (vec : Vec3) : Vec3 :=
  if !s.b3D then vec else
  let vec4 := (s.projection.mul s.modelView).mulVec ⟨vec.x, vec.y, vec.z, 1⟩
  let vec : Vec3 := ⟨vec4.x / vec4.w, vec4.y / vec4.w, vec4.z / vec4.w⟩
  ⟨vec.x / vec.z * s.viewportRect.width * (1 / 2),
    vec.y / vec.z * s.viewportRect.height * (1 / 2), 0⟩

/-- The read `vertexData[i]`; a read past the end, which has no defined result,
gives the zero vector. -/
def vertexAt (vertexData : List Vec3) (i : Nat) : Vec3 := vertexData.getD i default

/-- The body of the `for` loop of both wireframe methods at index `i`: `get i` is
the vertex read at index `i`, already transformed. -/
def wireframeBody (get : Nat → Vec3) (drawMode : ofPrimitiveMode) (i : Nat) :
    List CairoCall :=
  let v := get i
  match drawMode with
  | .OF_PRIMITIVE_TRIANGLES =>
    if (i + 1) % 3 = 0 then
      let v2 := get (i - 2)
      [.line_to v.x v.y, .line_to v2.x v2.y, .move_to v.x v.y]
    else if (i + 3) % 3 = 0 then
      [.move_to v.x v.y]
    else
      [.line_to v.x v.y]
  | .OF_PRIMITIVE_TRIANGLE_STRIP =>
    let v2 := get (i - 2)
    [.line_to v.x v.y, .line_to v2.x v2.y, .move_to v.x v.y]
  | .OF_PRIMITIVE_TRIANGLE_FAN => []
  | _ => []

/-- The path calls of both wireframe methods over `n` indices, from the first
`move_to` to the end of the loop: the loop runs `i` from 1 (from 2 in strip mode,
after two more `line_to`) up to `n - 1`. -/
def wireframeCalls (get : Nat → Vec3) (drawMode : ofPrimitiveMode) (n : Nat) :
    List CairoCall :=
  let start := if drawMode = .OF_PRIMITIVE_TRIANGLE_STRIP then 2 else 1
  [CairoCall.move_to (get 0).x (get 0).y]
    ++ (if drawMode = .OF_PRIMITIVE_TRIANGLE_STRIP then
          [CairoCall.line_to (get 1).x (get 1).y, CairoCall.line_to (get 2).x (get 2).y]
        else [])
    ++ (List.range' start (n - start)).flatMap (wireframeBody get drawMode)

/-- The cairo calls of `draw(vertexData, drawMode)` on a non-empty vertex list. -/
def vertexDataCalls (s : Renderer) (vertexData : List Vec3) (drawMode : ofPrimitiveMode) :
    List CairoCall :=
  [CairoCall.new_path]
    ++ wireframeCalls (fun i => transform s (vertexAt vertexData i)) drawMode vertexData.length
    ++ [CairoCall.move_to (vertexAt vertexData (vertexData.length - 1)).x
          (vertexAt vertexData (vertexData.length - 1)).y,
        CairoCall.stroke]

/-- The method `ofCairoRenderer::draw(const vector<glm::vec3> & vertexData,
ofPrimitiveMode drawMode)`. -/
def draw_vertexData (s : Renderer) (vertexData : List Vec3) (drawMode : ofPrimitiveMode) :
    Option Renderer :=
  if vertexData.length = 0 then some s else
  let s := pushMatrix s
  let s := (vertexDataCalls s vertexData drawMode).foldl Renderer.cairo s
  popMatrix s

/-- An `ofMesh`, as far as the renderer reads it: `getVertex`, `getIndex`,
`getNumVertices`, `getNumIndices` and `getMode`. -/
structure ofMesh where
  vertices : List Vec3
  indices : List Nat
  mode : ofPrimitiveMode
deriving DecidableEq, Repr

/-- The read `primitive.getVertex(primitive.getIndex(i))`; a read past the end of
either list gives index 0, respectively the zero vector. -/
def ofMesh.vertexOfIndex (primitive : ofMesh) (i : Nat) : Vec3 :=
  primitive.vertices.getD (primitive.indices.getD i 0) default

/-- The method `ofMesh::setupIndicesAuto`: the indices become 0, 1, ..., one for each
vertex. -/
def ofMesh.setupIndicesAuto (primitive : ofMesh) : ofMesh :=
  { primitive with indices := List.range primitive.vertices.length }

/-- The cairo calls of `draw(ofMesh)` on a mesh that has indices. -/
def meshCalls (s : Renderer) (primitive : ofMesh) : List CairoCall :=
  [CairoCall.new_path, CairoCall.new_path]
    ++ wireframeCalls (fun i => transform s (primitive.vertexOfIndex i)) primitive.mode
        primitive.indices.length
    ++ [CairoCall.move_to (primitive.vertexOfIndex (primitive.indices.length - 1)).x
          (primitive.vertexOfIndex (primitive.indices.length - 1)).y]
    ++ (if s.lineWidth > 0 then [CairoCall.stroke] else [])

/-- The warning at the head of `draw(const ofMesh &, ...)`: logged when one of the
three flags is set. -/
def warnUnsupported (s : Renderer) (useColors useTextures useNormals : Bool) : Renderer :=
  if useColors || useTextures || useNormals then { s with warnings := s.warnings + 1 } else s

/-- The method `ofCairoRenderer::draw(const ofMesh & primitive, ofPolyRenderMode mode,
bool useColors, bool useTextures, bool useNormals)`.  A mesh without indices is
drawn through a copy with automatic indices, by a second call with the same mode
and flags; that copy has as many indices as vertices, so the second call warns
again and takes the last branch. -/
def draw_ofMesh (s : Renderer) (primitive : ofMesh) (_mode : ofPolyRenderMode)
    (useColors useTextures useNormals : Bool) : Renderer :=
  let s := warnUnsupported s useColors useTextures useNormals
  if primitive.vertices.length = 0 then s
  else if primitive.indices.length = 0 then
    let s := warnUnsupported s useColors useTextures useNormals
    (meshCalls s primitive.setupIndicesAuto).foldl Renderer.cairo s
  else
    (meshCalls s primitive).foldl Renderer.cairo s

/-- The state of the path after a list of calls. -/
def pathEnd (E : Ext) (st : PathState) : List CairoCall → PathState
  | [] => st
  | c :: cs => pathEnd E (pathStep E st c).1 cs

/-- The three edges of triangle `j` of a list of points read through `get`. -/
def triangleEdges (get : Nat → Vec3) (j : Nat) : List Piece :=
  [Piece.line (get (3 * j)).xy (get (3 * j + 1)).xy,
    Piece.line (get (3 * j + 1)).xy (get (3 * j + 2)).xy,
    Piece.line (get (3 * j + 2)).xy (get (3 * j)).xy]

/-! ## Amounts that are not finite

A float division by zero gives an infinity or a NaN.  Such a value is `nonfinite`
here; the finite floats stay exact rationals. -/

/-- A float: a finite value, taken exactly, or a value that is not finite (an
infinity or a NaN). -/
inductive XFloat where
  | finite (q : ℚ)
  | nonfinite
deriving DecidableEq, Repr

/-- The sum of two floats: not finite as soon as one operand is not. -/
def XFloat.add : XFloat → XFloat → XFloat
  | .finite a, .finite b => .finite (a + b)
  | _, _ => .nonfinite

/-- The difference of two floats: not finite as soon as one operand is not. -/
def XFloat.sub : XFloat → XFloat → XFloat
  | .finite a, .finite b => .finite (a - b)
  | _, _ => .nonfinite

/-- The product of two floats: not finite as soon as one operand is not (an
infinity times zero is a NaN). -/
def XFloat.mul : XFloat → XFloat → XFloat
  | .finite a, .finite b => .finite (a * b)
  | _, _ => .nonfinite

/-- The float division `a / b` of two finite floats: by zero it gives an infinity
or a NaN. -/
def XFloat.div (a b : ℚ) : XFloat :=
  if b = 0 then .nonfinite else .finite (a / b)

/-- A `cairo_matrix_t` whose entries need not be finite. -/
structure cairo_matrix_x where
  xx : XFloat
  yx : XFloat
  xy : XFloat
  yy : XFloat
  x0 : XFloat
  y0 : XFloat
deriving DecidableEq, Repr

/-- A matrix of finite entries among the matrices of any entries. -/
def cairo_matrix_t.toX (m : cairo_matrix_t) : cairo_matrix_x :=
  ⟨.finite m.xx, .finite m.yx, .finite m.xy, .finite m.yy, .finite m.x0, .finite m.y0⟩

/-- The product `cairo_matrix_multiply` on entries that need not be finite. -/
def cairo_matrix_multiply_x (a b : cairo_matrix_x) : cairo_matrix_x :=
  { xx := (a.xx.mul b.xx).add (a.yx.mul b.xy)
    yx := (a.xx.mul b.yx).add (a.yx.mul b.yy)
    xy := (a.xy.mul b.xx).add (a.yy.mul b.xy)
    yy := (a.xy.mul b.yx).add (a.yy.mul b.yy)
    x0 := ((a.x0.mul b.xx).add (a.y0.mul b.xy)).add b.x0
    y0 := ((a.x0.mul b.yx).add (a.y0.mul b.yy)).add b.y0 }

/-- The call `cairo_matrix_scale(&m, sx, sy)` with factors that need not be finite. -/
def cairo_matrix_scale_x (m : cairo_matrix_x) (sx sy : XFloat) : cairo_matrix_x :=
  cairo_matrix_multiply_x
    ⟨sx, .finite 0, .finite 0, sy, .finite 0, .finite 0⟩ m

/-- The test of cairo on a matrix handed to `cairo_set_matrix`: the determinant is
finite and not zero.  A matrix that fails it is refused and the context enters
its error state. -/
def cairo_matrix_is_invertible_x (m : cairo_matrix_x) : Bool :=
  match (m.xx.mul m.yy).sub (m.yx.mul m.xy) with
  | .finite det => decide (det ≠ 0)
  | .nonfinite => false

/-- The guard of `scale` on one amount, `if (xAmnt == 0) xAmnt = epsilon`: an
infinity and a NaN do not compare equal to 0 and pass. -/
def scaleGuard (amnt : XFloat) : XFloat :=
  if amnt = .finite 0 then .finite float_epsilon else amnt

/-- The matrix that `scale(xAmnt, yAmnt, zAmnt)` hands to `cairo_set_matrix`, `m`
being the matrix of the context, for amounts that need not be finite. -/
def scale_matrix_x (m : cairo_matrix_t) (xAmnt yAmnt : XFloat) : cairo_matrix_x :=
  cairo_matrix_scale_x m.toX (scaleGuard xAmnt) (scaleGuard yAmnt)

/-- The method `ofCairoRenderer::scale` for amounts that need not be finite.  With
finite amounts it is `scale`.  With an amount that is not finite, on an open
surface, the matrix handed to `cairo_set_matrix` has no finite determinant, cairo
refuses it and the context enters its error state, which no state of this
embedding stands for: the result is `none`. -/
def scaleX (s : Renderer) (xAmnt yAmnt : XFloat) (zAmnt : ℚ) : Option Renderer :=
  match xAmnt, yAmnt with
  | .finite x, .finite y => some (scale s x y zAmnt)
  | _, _ => if !s.isOpen then some s else none

/-- The largest value of an `int`. -/
def INT_MAX : Nat := 2147483647

/-! ## Images (`draw(const ofPixels &, ...)`) -/

/-- The enumeration `ofImageType`. -/
inductive ofImageType where
  | OF_IMAGE_GRAYSCALE
  | OF_IMAGE_COLOR
  | OF_IMAGE_COLOR_ALPHA
  | OF_IMAGE_UNDEFINED
deriving DecidableEq, Repr

/-- An `ofPixels` of 8-bit channels, as far as the renderer reads it: `getWidth`,
`getHeight`, `getImageType` and the bytes of `getData`. -/
structure ofPixels where
  width : Nat
  height : Nat
  imageType : ofImageType
  data : List Nat
deriving DecidableEq, Repr

/-- The read `imgPix[i]` of the bytes of an image (0 past their end). -/
def ofPixels.imgPix (pix : ofPixels) (i : Nat) : Nat := pix.data.getD i 0

/-- The value `cairo_format_stride_for_width(format, width)` for the two 32-bit
formats: four bytes for each pixel of a row. -/
def cairo_format_stride_for_width (_format : cairo_format_t) (width : Nat) : Nat :=
  4 * width

/-- The buffer `swapPixels` of the `OF_IMAGE_COLOR` branch: `resize(picsize * 4)`
gives zero bytes, which the loop over the pixels then overwrites three at a time. -/
def swapPixelsColor (littleEndian : Bool) (imgPix : Nat → Nat) (picsize : Nat) : List Nat :=
  (List.range picsize).foldl (fun swapPixels p =>
    if littleEndian then
      ((swapPixels.set (p * 4) (imgPix (p * 3 + 2))).set (p * 4 + 1) (imgPix (p * 3 + 1))).set
        (p * 4 + 2) (imgPix (p * 3))
    else
      ((swapPixels.set (p * 4) (imgPix (p * 3))).set (p * 4 + 1) (imgPix (p * 3 + 1))).set
        (p * 4 + 2) (imgPix (p * 3 + 2)))
    (List.replicate (picsize * 4) 0)

/-- The buffer `swapPixels` of the `OF_IMAGE_COLOR_ALPHA` branch on a little-endian
target. -/
def swapPixelsColorAlpha (imgPix : Nat → Nat) (picsize : Nat) : List Nat :=
  (List.range picsize).foldl (fun swapPixels p =>
    (((swapPixels.set (p * 4) (imgPix (p * 4 + 2))).set (p * 4 + 1) (imgPix (p * 4 + 1))).set
      (p * 4 + 2) (imgPix (p * 4))).set (p * 4 + 3) (imgPix (p * 4 + 3)))
    (List.replicate (picsize * 4) 0)

/-- The buffer `swapPixels` of the `OF_IMAGE_GRAYSCALE` branch. -/
def swapPixelsGrayscale (imgPix : Nat → Nat) (picsize : Nat) : List Nat :=
  (List.range picsize).foldl (fun swapPixels p =>
    ((swapPixels.set (p * 4) (imgPix p)).set (p * 4 + 1) (imgPix p)).set (p * 4 + 2) (imgPix p))
    (List.replicate (picsize * 4) 0)

/-- The image that `draw(const ofPixels & raw, ...)` converts: `raw`, or its crop
when the source rectangle is not the whole destination size.  `cropTo` is
`ofPixels::cropTo` into a fresh image of `sw` by `sh` pixels. -/
def pixelsToDraw (cropTo : ofPixels → ℚ → ℚ → ℚ → ℚ → ofPixels) (raw : ofPixels)
    (w h sx sy sw sh : ℚ) : ofPixels :=
  let shouldCrop := sx ≠ 0 ∨ sy ≠ 0 ∨ sw ≠ w ∨ sh ≠ h
  if shouldCrop then cropTo raw sx sy sw sh else raw

/-- The method `ofCairoRenderer::draw(const ofPixels & raw, x, y, z, w, h, sx, sy, sw,
sh)`; `littleEndian` says whether `TARGET_LITTLE_ENDIAN` is defined.  The two
amounts of `scale` are float divisions by the width and the height of the image,
not finite when these are 0.  `picsize` is an `int`: where `picsize * 4` is
evaluated and the product of width, height and 4 is above `INT_MAX`, the `int`
arithmetic overflows and the result is `none`. -/
def draw_ofPixels (littleEndian : Bool) (cropTo : ofPixels → ℚ → ℚ → ℚ → ℚ → ofPixels)
    (s : Renderer) (raw : ofPixels) (x y z w h sx sy sw sh : ℚ) : Option Renderer :=
  let pix := pixelsToDraw cropTo raw w h sx sy sw sh
  let s := pushMatrix s
  let s := translate s x y z
  (scaleX s (XFloat.div w pix.width) (XFloat.div h pix.height) 1).bind fun s =>
  let picsize := pix.width * pix.height
  match pix.imageType with
  | .OF_IMAGE_COLOR =>
    if INT_MAX < picsize * 4 then none else
    let swapPixels := swapPixelsColor littleEndian pix.imgPix picsize
    let stride := cairo_format_stride_for_width .CAIRO_FORMAT_RGB24 pix.width
    let s := s.cairo (.paint_image .CAIRO_FORMAT_RGB24 pix.width pix.height stride swapPixels)
    popMatrix s
  | .OF_IMAGE_COLOR_ALPHA =>
    let stride := cairo_format_stride_for_width .CAIRO_FORMAT_ARGB32 pix.width
    if littleEndian then
      if INT_MAX < picsize * 4 then none else
      let swapPixels := swapPixelsColorAlpha pix.imgPix picsize
      let s := s.cairo
        (.paint_image .CAIRO_FORMAT_ARGB32 pix.width pix.height stride swapPixels)
      popMatrix s
    else
      let s := s.cairo (.paint_image .CAIRO_FORMAT_ARGB32 pix.width pix.height stride pix.data)
      popMatrix s
  | .OF_IMAGE_GRAYSCALE =>
    if INT_MAX < picsize * 4 then none else
    let swapPixels := swapPixelsGrayscale pix.imgPix picsize
    let stride := cairo_format_stride_for_width .CAIRO_FORMAT_RGB24 pix.width
    let s := s.cairo (.paint_image .CAIRO_FORMAT_RGB24 pix.width pix.height stride swapPixels)
    popMatrix s
  | .OF_IMAGE_UNDEFINED => popMatrix s

/-- The image data handed to the drawing surface by the calls of a list. -/
def paintedData : List CairoCall → List (List Nat)
  | [] => []
  | .paint_image _ _ _ _ data :: cs => data :: paintedData cs
  | _ :: cs => paintedData cs

/-! ## `setup`: the output type -/

/-- The enumeration `ofCairoRenderer::Type`. -/
inductive Type_ where
  | PDF
  | SVG
  | IMAGE
  | FROM_FILE_EXTENSION
deriving DecidableEq, Repr

/-- The branch that the surface-creation `switch` of `setup` takes. -/
inductive SurfaceBranch where
  | pdf_stream
  | pdf_file
  | svg_stream
  | svg_file
  | image
  | fatal_undetermined_type
deriving DecidableEq, Repr

/-- The resolution of the type at the start of `setup`; `ext` is
`filename.extension()`. -/
def resolveType (ext : String) (type : Type_) : Type_ :=
  if type = .FROM_FILE_EXTENSION then
    if ext = ".svg" ∨ ext = ".SVG" then .SVG
    else if ext = ".pdf" ∨ ext = ".PDF" then .PDF
    else .IMAGE
  else type

/-- The surface-creation `switch (type)` of `setup`. -/
def surfaceBranch (filename : String) : Type_ → SurfaceBranch
  | .PDF => if filename = "" then .pdf_stream else .pdf_file
  | .SVG => if filename = "" then .svg_stream else .svg_file
  | .IMAGE => .image
  | .FROM_FILE_EXTENSION => .fatal_undetermined_type

/-- The type that `setup(_filename, _type, ...)` stores and the branch of the
surface-creation switch it takes; `extension` is `path::extension`. -/
def setup_type (extension : String → String) (_filename : String) (_type : Type_) :
    Type_ × SurfaceBranch :=
  let type := resolveType (extension _filename) _type
  (type, surfaceBranch _filename type)

/-! ## The style history (`pushStyle`, `popStyle`) -/

/-- The current style and the style history of the renderer, over any type of
styles. -/
structure StyleState (σ : Type) where
  currentStyle : σ
  styleHistory : List σ

/-- The method `ofCairoRenderer::pushStyle`; `maxStyleHistory` is the constant
`OF_MAX_STYLE_HISTORY`. -/
def pushStyle {σ : Type} (maxStyleHistory : Nat) (s : StyleState σ) : StyleState σ :=
  let s := { s with styleHistory := s.styleHistory ++ [s.currentStyle] }
  if s.styleHistory.length > maxStyleHistory then
    { s with styleHistory := s.styleHistory.tail }
  else s

/-- The method `ofCairoRenderer::popStyle`: `setStyle(styleHistory.back())`, which
ends in `currentStyle = style`, then `pop_back`. -/
def popStyle {σ : Type} (s : StyleState σ) : StyleState σ :=
  match s.styleHistory.getLast? with
  | some style => { currentStyle := style, styleHistory := s.styleHistory.dropLast }
  | none => s

/-- A call that concerns the style history; `setStyle` stands for any change of
the current style. -/
inductive StyleOp (σ : Type) where
  | pushStyle
  | popStyle
  | setStyle (style : σ)

/-- The effect of a sequence of style calls. -/
def applyStyleOps {σ : Type} (maxStyleHistory : Nat) (s : StyleState σ) :
    List (StyleOp σ) → StyleState σ
  | [] => s
  | .pushStyle :: ops => applyStyleOps maxStyleHistory (pushStyle maxStyleHistory s) ops
  | .popStyle :: ops => applyStyleOps maxStyleHistory (popStyle s) ops
  | .setStyle style :: ops => applyStyleOps maxStyleHistory { s with currentStyle := style } ops

/-! ## `viewport` -/

/-- The method `ofCairoRenderer::viewport(x, y, width, height, invertY)`. -/
def viewport (s : Renderer) (x y width height : ℚ) (invertY : Bool) : Renderer :=
  let width := if width < 0 then s.originalViewport.width else width
  let height := if height < 0 then s.originalViewport.height else height
  let y := if invertY then -y else y
  let s := { s with viewportRect := ⟨x, y, width, height⟩ }
  let s := s.cairo .reset_clip
  let s := s.cairo .new_path
  let s := s.cairo (.move_to s.viewportRect.x s.viewportRect.y)
  let s := s.cairo (.line_to (s.viewportRect.x + s.viewportRect.width) s.viewportRect.y)
  let s := s.cairo (.line_to (s.viewportRect.x + s.viewportRect.width)
    (s.viewportRect.y + s.viewportRect.height))
  let s := s.cairo (.line_to s.viewportRect.x (s.viewportRect.y + s.viewportRect.height))
  s.cairo .clip

/-- An image that was never allocated: no pixels, undefined type. -/
def emptyPixels : ofPixels :=
  { width := 0, height := 0, imageType := .OF_IMAGE_UNDEFINED, data := [] }

/-- A colour image of 32768 by 16384 pixels, all bytes 0. -/
def hugePixels : ofPixels :=
  { width := 32768, height := 16384, imageType := .OF_IMAGE_COLOR,
    data := List.replicate (3 * (32768 * 16384)) 0 }

/-- A colour image of one by two pixels, with the bytes R, G, B of each. -/
def examplePixels : ofPixels :=
  { width := 1, height := 2, imageType := .OF_IMAGE_COLOR, data := [1, 2, 3, 4, 5, 6] }

/-- The matrix in force when the `arc` and `arcNegative` branches issue their arc,
`m` being the matrix before the command: for different radii the three calls
translate, scale, translate are applied to it (scale replaces a zero ratio by
`float_epsilon`), for equal radii it is `m`. -/
def arcMatrix (m : cairo_matrix_t) (command : Command) : cairo_matrix_t :=
  if command.radiusX ≠ command.radiusY then
    cairo_matrix_translate
      (cairo_matrix_scale
        (cairo_matrix_translate m 0 (-command.to_.y * (command.radiusY / command.radiusX)))
        1 (if command.radiusY / command.radiusX = 0 then float_epsilon
            else command.radiusY / command.radiusX))
      0 (command.to_.y / (command.radiusY / command.radiusX))
  else m

/-- The Bezier call that the `curveTo` branch issues for the window p1, p2, p3, p4. -/
def curveCall (p1 p2 p3 p4 : Vec3) : CairoCall :=
  CairoCall.curve_to (curveCp1 p1 p2 p3).x (curveCp1 p1 p2 p3).y
    (curveCp2 p2 p3 p4).x (curveCp2 p2 p3 p4).y p3.x p3.y

/-- An arc command about (3, 4) with the radii 10 and 5. -/
def exampleArcCommand : Command :=
  { type := .arc, to_ := ⟨3, 4, 0⟩, cp1 := ⟨0, 0, 0⟩, cp2 := ⟨0, 0, 0⟩,
    radiusX := 10, radiusY := 5, angleBegin := 0, angleEnd := 90 }

/-- Whether a piece is a line of zero length. -/
def Piece.isDegenerate : Piece → Bool
  | .line a b => decide (a = b)
  | _ => false

/-- The two new edges of strip triangle `i` (vertices `i - 2`, `i - 1`, `i`) for
`i` at least 3: from vertex `i - 1` to vertex `i` and from vertex `i` to vertex
`i - 2`. -/
def stripTriangleEdges (get : Nat → Vec3) (i : Nat) : List Piece :=
  [Piece.line (get (i - 1)).xy (get i).xy, Piece.line (get i).xy (get (i - 2)).xy]

/-- The edges of a triangle strip over `n` points read through `get`: the three
edges of the first triangle, then the two new edges of each further triangle. -/
def stripEdges (get : Nat → Vec3) (n : Nat) : List Piece :=
  [Piece.line (get 0).xy (get 1).xy, Piece.line (get 1).xy (get 2).xy,
    Piece.line (get 2).xy (get 0).xy]
    ++ (List.range' 3 (n - 3)).flatMap (stripTriangleEdges get)

/-- The determinant of the linear part of a `cairo_matrix_t`; the matrix is
invertible when it is not zero. -/
def cairo_matrix_det (m : cairo_matrix_t) : ℚ := m.xx * m.yy - m.yx * m.xy

/-- The method `ofCairoRenderer::rotateXRad`. -/
def rotateXRad (E : Ext) (s : Renderer) (radians : ℚ) : Renderer :=
  rotateRad E s radians 1 0 0

/-- The method `ofCairoRenderer::rotateYRad`. -/
def rotateYRad (E : Ext) (s : Renderer) (radians : ℚ) : Renderer :=
  rotateRad E s radians 0 1 0

/-- The method `ofCairoRenderer::rotateZRad`. -/
def rotateZRad (E : Ext) (s : Renderer) (radians : ℚ) : Renderer :=
  rotateRad E s radians 0 0 1

/-- The method `ofCairoRenderer::rotateRad(float radians)` with the one argument. -/
def rotateRad_radians (E : Ext) (s : Renderer) (radians : ℚ) : Renderer :=
  rotateZRad E s radians

/-- The positions that the body of the wireframe loop reads at index `i`:
`vertexData[i]`, and `vertexData[i - 2]` where the branch reads it. -/
def wireframeBodyReads (drawMode : ofPrimitiveMode) (i : Nat) : List Nat :=
  i :: (match drawMode with
    | .OF_PRIMITIVE_TRIANGLES => if (i + 1) % 3 = 0 then [i - 2] else []
    | .OF_PRIMITIVE_TRIANGLE_STRIP => [i - 2]
    | _ => [])

/-- The positions at which both wireframe methods read their list of `n` vertices
(of `n` indices for a mesh), in order: position 0, positions 1 and 2 in strip
mode, the reads of the loop, and position `n - 1` for the last `move_to`. -/
def wireframeReads (drawMode : ofPrimitiveMode) (n : Nat) : List Nat :=
  let start := if drawMode = .OF_PRIMITIVE_TRIANGLE_STRIP then 2 else 1
  [0]
    ++ (if drawMode = .OF_PRIMITIVE_TRIANGLE_STRIP then [1, 2] else [])
    ++ (List.range' start (n - start)).flatMap (wireframeBodyReads drawMode)
    ++ [n - 1, n - 1]

/-- A renderer on an open surface, in its state after construction and `setup`. -/
def exampleRenderer : Renderer :=
  { isOpen := true, b3D := false, matrix := cairo_matrix_init_identity, matrixStack := [],
    modelView := Mat4.identity, modelViewStack := [], projection := Mat4.identity,
    curvePoints := [], viewportRect := ⟨0, 0, 100, 100⟩,
    originalViewport := ⟨0, 0, 100, 100⟩, bFill := true, lineWidth := 1, trace := [],
    warnings := 0 }

/-- A numeric library for the examples: the values of its functions play no part
in them. -/
def exampleExt : Ext :=
  { cos := fun _ => 1, sin := fun _ => 0, glm_rotate := fun m _ _ => m,
    two_pi := 25 / 4, ofDegToRad := fun d => d / 57 }

/-- A path command of the given type and target point. -/
def exampleCommand (t : CommandType) (x y : ℚ) : Command :=
  { type := t, to_ := ⟨x, y, 0⟩, cp1 := ⟨0, 0, 0⟩, cp2 := ⟨0, 0, 0⟩,
    radiusX := 0, radiusY := 0, angleBegin := 0, angleEnd := 0 }

/-- The commands of the example run: a moveTo to (0, 0) and four curveTo commands
with the points (1, 1), (2, 2), (3, 3), (4, 4). -/
def exampleCurveRun : List Command :=
  [exampleCommand CommandType.curveTo 1 1, exampleCommand CommandType.curveTo 2 2,
    exampleCommand CommandType.curveTo 3 3, exampleCommand CommandType.curveTo 4 4]

/-! ## Theorems -/

@[simp] theorem Vec3.add_x (a b : Vec3) : (a + b).x = a.x + b.x := rfl
@[simp] theorem Vec3.add_y (a b : Vec3) : (a + b).y = a.y + b.y := rfl
@[simp] theorem Vec3.add_z (a b : Vec3) : (a + b).z = a.z + b.z := rfl
@[simp] theorem Vec3.sub_x (a b : Vec3) : (a - b).x = a.x - b.x := rfl
@[simp] theorem Vec3.sub_y (a b : Vec3) : (a - b).y = a.y - b.y := rfl
@[simp] theorem Vec3.sub_z (a b : Vec3) : (a - b).z = a.z - b.z := rfl
@[simp] theorem Vec3.mul_x (a : Vec3) (k : ℚ) : (a * k).x = a.x * k := rfl
@[simp] theorem Vec3.mul_y (a : Vec3) (k : ℚ) : (a * k).y = a.y * k := rfl
@[simp] theorem Vec3.mul_z (a : Vec3) (k : ℚ) : (a * k).z = a.z * k := rfl

/-- The Bezier form of the Catmull-Rom segment, one coordinate at a time. -/
theorem bezier_eq_catmullRom_coord (a b c d t : ℚ) :
    bezier b (b + (c - a) * (1 / 6)) (c + (b - d) * (1 / 6)) c t = catmullRom a b c d t := by
  unfold bezier catmullRom
  ring

/-- A run of curveTo commands on an open surface: the calls issued are the Bezier
calls of the window followed by the new points, under the unchanged matrix, and
the window keeps the last three points. -/
theorem draw_curveTo_run (E : Ext) : ∀ (cmds : List Command),
    (∀ c ∈ cmds, c.type = CommandType.curveTo) → ∀ s : Renderer, s.isOpen = true →
    s.curvePoints.length ≤ 3 →
    ∃ s', draw_Commands E s cmds = some s' ∧
      s'.trace = s.trace ++
        (catmullCalls (s.curvePoints ++ cmds.map Command.to_)).map (Issued.mk s.matrix) ∧
      s'.curvePoints = lastThree (s.curvePoints ++ cmds.map Command.to_) ∧
      s'.isOpen = true ∧ s'.matrix = s.matrix := by
  intro cmds
  induction cmds with
  | nil =>
    intro _ s hopen hlen
    refine ⟨s, rfl, ?_, ?_, hopen, rfl⟩
    · rcases hs : s.curvePoints with _ | ⟨a, _ | ⟨b, _ | ⟨c, _ | ⟨d, r⟩⟩⟩⟩ <;>
        simp_all [catmullCalls]
    · rcases hs : s.curvePoints with _ | ⟨a, _ | ⟨b, _ | ⟨c, _ | ⟨d, r⟩⟩⟩⟩ <;>
        simp_all [lastThree]
  | cons c cs ih =>
    intro hall s hopen hlen
    have hc : c.type = CommandType.curveTo := hall c (List.mem_cons_self _ _)
    have hcs : ∀ c' ∈ cs, c'.type = CommandType.curveTo :=
      fun c' h => hall c' (List.mem_cons_of_mem _ h)
    have hd : draw_Command E s c = some (drawCurveTo s c) := by
      simp [draw_Command, hopen, hc]
    simp only [draw_Commands, hd, Option.some_bind]
    rcases hs : s.curvePoints with _ | ⟨p1, _ | ⟨p2, _ | ⟨p3, _ | ⟨p4, r⟩⟩⟩⟩
    · obtain ⟨s', h1, h2, h3, h4, h5⟩ := ih hcs (drawCurveTo s c)
        (by simp [drawCurveTo, hs, hopen]) (by simp [drawCurveTo, hs])
      refine ⟨s', h1, ?_, ?_, h4, ?_⟩
      · rw [h2]; simp [drawCurveTo, hs]
      · rw [h3]; simp [drawCurveTo, hs]
      · rw [h5]; simp [drawCurveTo, hs]
    · obtain ⟨s', h1, h2, h3, h4, h5⟩ := ih hcs (drawCurveTo s c)
        (by simp [drawCurveTo, hs, hopen]) (by simp [drawCurveTo, hs])
      refine ⟨s', h1, ?_, ?_, h4, ?_⟩
      · rw [h2]; simp [drawCurveTo, hs]
      · rw [h3]; simp [drawCurveTo, hs]
      · rw [h5]; simp [drawCurveTo, hs]
    · obtain ⟨s', h1, h2, h3, h4, h5⟩ := ih hcs (drawCurveTo s c)
        (by simp [drawCurveTo, hs, hopen]) (by simp [drawCurveTo, hs])
      refine ⟨s', h1, ?_, ?_, h4, ?_⟩
      · rw [h2]; simp [drawCurveTo, hs]
      · rw [h3]; simp [drawCurveTo, hs]
      · rw [h5]; simp [drawCurveTo, hs]
    · obtain ⟨s', h1, h2, h3, h4, h5⟩ := ih hcs (drawCurveTo s c)
        (by simp [drawCurveTo, hs, hopen, Renderer.cairo])
        (by simp [drawCurveTo, hs])
      refine ⟨s', h1, ?_, ?_, h4, ?_⟩
      · rw [h2]; simp [drawCurveTo, hs, Renderer.cairo, catmullCalls]
      · rw [h3]; simp [drawCurveTo, hs, Renderer.cairo, lastThree]
      · rw [h5]; simp [drawCurveTo, hs, Renderer.cairo]
    · simp [hs] at hlen

/-- The pieces of a run of Bezier calls, from a path whose current point is `c`:
segment `k` runs over the points `k .. k+3`, ends at point `k+2`, and starts at
`c` (the first) or at point `k+1` (the others). -/
theorem pathPieces_catmullCalls (E : Ext) : ∀ (pts : List Vec3) (st : PathState)
    (c : ℚ × ℚ), st.current = some c →
    pathPieces E st (catmullCalls pts) = (List.range (pts.length - 3)).map (fun k =>
      Piece.bezier (if k = 0 then c else (pts.getD (k + 1) default).xy)
        (curveCp1 (pts.getD k default) (pts.getD (k + 1) default)
          (pts.getD (k + 2) default)).xy
        (curveCp2 (pts.getD (k + 1) default) (pts.getD (k + 2) default)
          (pts.getD (k + 3) default)).xy
        (pts.getD (k + 2) default).xy)
  | [], _, _, _ => by simp [catmullCalls, pathPieces]
  | [_], _, _, _ => by simp [catmullCalls, pathPieces]
  | [_, _], _, _, _ => by simp [catmullCalls, pathPieces]
  | [_, _, _], _, _, _ => by simp [catmullCalls, pathPieces]
  | p1 :: p2 :: p3 :: p4 :: rest, st, c, h => by
    have ih := pathPieces_catmullCalls E (p2 :: p3 :: p4 :: rest)
      ⟨some (p3.x, p3.y), st.start⟩ (p3.x, p3.y) rfl
    have hlen : (p1 :: p2 :: p3 :: p4 :: rest).length - 3
        = ((p2 :: p3 :: p4 :: rest).length - 3) + 1 := by simp
    simp only [catmullCalls, pathPieces, pathStep, h]
    rw [ih, hlen, List.range_succ_eq_map, List.map_cons, List.map_map]
    refine congrArg₂ List.cons ?_ ?_
    · simp [Vec3.xy]
    · apply List.map_congr_left
      intro k _
      cases k <;> simp [Vec3.xy]

/-- C1: a curveTo command that brings the curve-point window to the four points
p1, p2, p3, p4 issues exactly one `curve_to`, with control points
p2 + (p3 - p1)/6 and p3 + (p2 - p4)/6 and end point p3, componentwise in x and y;
a curveTo command that leaves fewer than four points in the window issues nothing. -/
theorem curveTo_emits_one_bezier (E : Ext) (s : Renderer) (command : Command)
    (hopen : s.isOpen = true) (htype : command.type = CommandType.curveTo) :
    (∀ p1 p2 p3 p4 : Vec3, s.curvePoints ++ [command.to_] = [p1, p2, p3, p4] →
      ∃ s', draw_Command E s command = some s' ∧
        s'.trace = s.trace ++ [⟨s.matrix, CairoCall.curve_to
          (p2.x + (p3.x - p1.x) / 6) (p2.y + (p3.y - p1.y) / 6)
          (p3.x + (p2.x - p4.x) / 6) (p3.y + (p2.y - p4.y) / 6) p3.x p3.y⟩]) ∧
    ((s.curvePoints ++ [command.to_]).length < 4 →
      ∃ s', draw_Command E s command = some s' ∧ s'.trace = s.trace) := by
  have hd : draw_Command E s command = some (drawCurveTo s command) := by
    simp [draw_Command, hopen, htype]
  refine ⟨fun p1 p2 p3 p4 h => ⟨_, hd, ?_⟩, fun h => ⟨_, hd, ?_⟩⟩
  · simp [drawCurveTo, h, Renderer.cairo, curveCp1, curveCp2, div_eq_mul_inv]
  · generalize hl : s.curvePoints ++ [command.to_] = l at h
    simp only [drawCurveTo, hl]
    split
    · simp at h
    · rfl

/-- Witness of C1: the fourth curveTo of a run issues the one Bezier segment. -/
theorem curveTo_emits_one_bezier_witness :
    ∃ s', draw_Command exampleExt
        { exampleRenderer with curvePoints := [⟨0, 0, 0⟩, ⟨6, 0, 0⟩, ⟨12, 6, 0⟩] }
        (exampleCommand CommandType.curveTo 18 18) = some s' ∧
      s'.trace = exampleRenderer.trace ++ [⟨cairo_matrix_init_identity, CairoCall.curve_to
        (6 + (12 - 0) / 6) (0 + (6 - 0) / 6) (12 + (6 - 18) / 6) (6 + (0 - 18) / 6) 12 6⟩] :=
  (curveTo_emits_one_bezier exampleExt
    { exampleRenderer with curvePoints := [⟨0, 0, 0⟩, ⟨6, 0, 0⟩, ⟨12, 6, 0⟩] }
    (exampleCommand CommandType.curveTo 18 18) rfl rfl).1 _ _ _ _ rfl

/-- C2: for all points p1, p2, p3, p4 and every t, the cubic Bezier curve on
(p2, p2 + (p3 - p1)/6, p3 + (p2 - p4)/6, p3), the control points being those the
renderer computes, is the uniform Catmull-Rom segment
0.5 * (2 p2 + (p3 - p1) t + (2 p1 - 5 p2 + 4 p3 - p4) t^2 + (-p1 + 3 p2 - 3 p3 + p4) t^3). -/
theorem bezier_of_curveTo_eq_catmullRom (p1 p2 p3 p4 : Vec3) (t : ℚ) :
    bezierPoint p2 (curveCp1 p1 p2 p3) (curveCp2 p2 p3 p4) p3 t
      = catmullRomPoint p1 p2 p3 p4 t := by
  simp only [bezierPoint, catmullRomPoint, curveCp1, curveCp2, Vec3.add_x, Vec3.add_y,
    Vec3.add_z, Vec3.sub_x, Vec3.sub_y, Vec3.sub_z, Vec3.mul_x, Vec3.mul_y, Vec3.mul_z,
    bezier_eq_catmullRom_coord]

/-- C3, as stated, fails: after moveTo (0, 0) and the curveTo points (1, 1), (2, 2),
(3, 3), (4, 4) the one Bezier segment issued starts at the moveTo point (0, 0), the
current point of the path, and not at (2, 2), the second point of its window. -/
theorem curve_run_first_segment_counterexample :
    (draw_Commands exampleExt exampleRenderer
        (exampleCommand CommandType.moveTo 0 0 :: exampleCurveRun)).map
      (fun s' => pathPieces exampleExt ⟨none, none⟩ (issuedSince exampleRenderer s'))
      = some [Piece.bezier (0, 0) (7 / 3, 7 / 3) (8 / 3, 8 / 3) (3, 3)] ∧
    Piece.bezier (0, 0) (7 / 3, 7 / 3) (8 / 3, 8 / 3) (3, 3)
      ≠ Piece.bezier (pointAt exampleCurveRun 1).xy (7 / 3, 7 / 3) (8 / 3, 8 / 3) (3, 3) := by
  constructor
  · simp [draw_Commands, draw_Command, drawCurveTo, exampleRenderer, exampleCommand,
      exampleCurveRun, Renderer.cairo, issuedSince, pathPieces, pathStep, curveCp1, curveCp2]
    norm_num
  · simp [pointAt, exampleCurveRun, exampleCommand, Vec3.xy, Prod.ext_iff]

/-- C3, amended: for a moveTo followed by curveTo commands with points q0 .. q(n-1),
on an open surface, the path pieces issued are n - 3 Bezier segments (none when
n < 4); segment k has the control points computed from q(k) .. q(k+3) and ends at
q(k+2), the third point of its window; every segment but the first starts at
q(k+1), the second point of its window, where the segment before it ended, and
the first starts at the moveTo point.  So the curve is continuous and passes
through the moveTo point and q2 .. q(n-2). -/
theorem curve_run_segments (E : Ext) (s : Renderer) (m : Command) (cmds : List Command)
    (st0 : PathState) (hopen : s.isOpen = true) (hm : m.type = CommandType.moveTo)
    (hc : ∀ c ∈ cmds, c.type = CommandType.curveTo) :
    ∃ s', draw_Commands E s (m :: cmds) = some s' ∧
      pathPieces E st0 (issuedSince s s') = (List.range (cmds.length - 3)).map (fun k =>
        Piece.bezier (if k = 0 then m.to_.xy else (pointAt cmds (k + 1)).xy)
          (curveCp1 (pointAt cmds k) (pointAt cmds (k + 1)) (pointAt cmds (k + 2))).xy
          (curveCp2 (pointAt cmds (k + 1)) (pointAt cmds (k + 2)) (pointAt cmds (k + 3))).xy
          (pointAt cmds (k + 2)).xy) := by
  have hd : draw_Command E s m = some
      (({ s with curvePoints := [] } : Renderer).cairo (.move_to m.to_.x m.to_.y)) := by
    simp [draw_Command, hopen, hm]
  obtain ⟨s', h1, h2, _, _, _⟩ := draw_curveTo_run E cmds hc
    (({ s with curvePoints := [] } : Renderer).cairo (.move_to m.to_.x m.to_.y))
    (by simp [Renderer.cairo, hopen]) (by simp [Renderer.cairo])
  refine ⟨s', by simp only [draw_Commands, hd, Option.some_bind, h1], ?_⟩
  have hiss : issuedSince s s'
      = CairoCall.move_to m.to_.x m.to_.y :: catmullCalls (cmds.map Command.to_) := by
    simp [issuedSince, h2, Renderer.cairo, List.map_map, Function.comp_def]
  rw [hiss]
  simp only [pathPieces, pathStep, List.nil_append]
  rw [pathPieces_catmullCalls E _ _ (m.to_.x, m.to_.y) rfl]
  simp [pointAt, Vec3.xy]

/-- Witness of C3, amended: the run moveTo (0, 0), curveTo (1, 1), (2, 2), (3, 3),
(4, 4). -/
theorem curve_run_segments_witness :
    ∃ s', draw_Commands exampleExt exampleRenderer
        (exampleCommand CommandType.moveTo 0 0 :: exampleCurveRun) = some s' ∧
      pathPieces exampleExt ⟨none, none⟩ (issuedSince exampleRenderer s')
        = (List.range (exampleCurveRun.length - 3)).map (fun k =>
        Piece.bezier (if k = 0 then (exampleCommand CommandType.moveTo 0 0).to_.xy
            else (pointAt exampleCurveRun (k + 1)).xy)
          (curveCp1 (pointAt exampleCurveRun k) (pointAt exampleCurveRun (k + 1))
            (pointAt exampleCurveRun (k + 2))).xy
          (curveCp2 (pointAt exampleCurveRun (k + 1)) (pointAt exampleCurveRun (k + 2))
            (pointAt exampleCurveRun (k + 3))).xy
          (pointAt exampleCurveRun (k + 2)).xy) :=
  curve_run_segments exampleExt exampleRenderer (exampleCommand CommandType.moveTo 0 0)
    exampleCurveRun ⟨none, none⟩ rfl rfl (by simp [exampleCurveRun, exampleCommand])

/-- C4: on an open surface, for non-zero width and height, the matrix in force when
drawEllipse issues its arc (centre (x, y), radius width/2) maps (px, py) to where
the matrix current before the call maps (px, y + r * (py - y)), r = height/width;
the matrix is back to that one for the calls after the arc; and the image of the
circle of radius width/2 about (x, y) under (px, py) ↦ (px, y + r * (py - y)) is
the ellipse about (x, y) with semi-axes width/2 and height/2. -/
theorem drawEllipse_transform (E : Ext) (s : Renderer) (x y z width height : ℚ)
    (hopen : s.isOpen = true) (hw : width ≠ 0) (hh : height ≠ 0) :
    ∃ m', (drawEllipse E s x y z width height).map Renderer.trace
        = some (s.trace ++ [⟨s.matrix, CairoCall.new_path⟩,
          ⟨m', CairoCall.arc x y (width * (1 / 2)) 0 E.two_pi⟩,
          ⟨s.matrix, CairoCall.close_path⟩,
          ⟨s.matrix, if s.bFill then CairoCall.fill else CairoCall.stroke⟩]) ∧
      (∀ px py : ℚ, cairo_matrix_transform_point m' (px, py)
        = cairo_matrix_transform_point s.matrix (px, y + height / width * (py - y))) ∧
      (∀ X Y : ℚ,
        (∃ px py : ℚ, (px - x) ^ 2 + (py - y) ^ 2 = (width / 2) ^ 2 ∧
          (X, Y) = (px, y + height / width * (py - y))) ↔
        (X - x) ^ 2 / (width / 2) ^ 2 + (Y - y) ^ 2 / (height / 2) ^ 2 = 1) := by
  have hr : height / width ≠ 0 := div_ne_zero hh hw
  refine ⟨cairo_matrix_translate (cairo_matrix_scale
    (cairo_matrix_translate s.matrix 0 (-y * (height / width))) 1 (height / width))
    0 (y / (height / width)), ?_, ?_, ?_⟩
  · cases hb : s.b3D <;> cases hf : s.bFill <;>
      simp [drawEllipse, pushMatrix, popMatrix, translate, scale, Renderer.cairo, hopen, hr,
        hb, hf]
  · intro px py
    simp only [cairo_matrix_transform_point, cairo_matrix_translate, cairo_matrix_scale,
      cairo_matrix_multiply, cairo_matrix_init_translate, cairo_matrix_init_scale]
    refine Prod.ext ?_ ?_ <;> simp <;> field_simp <;> ring
  · intro X Y
    constructor
    · rintro ⟨px, py, hc, hxy⟩
      simp only [Prod.mk.injEq] at hxy
      obtain ⟨rfl, rfl⟩ := hxy
      have h2 : (width / 2) ^ 2 ≠ 0 := by positivity
      have h3 : (height / 2) ^ 2 ≠ 0 := by positivity
      field_simp
      field_simp at hc
      linear_combination (height ^ 2 * width ^ 2) * hc
    · intro h
      refine ⟨X, y + (Y - y) * width / height, ?_, ?_⟩
      · field_simp at h ⊢
        linear_combination h
      · simp only [Prod.mk.injEq, true_and]
        field_simp
        ring

/-- Witness of C4: the ellipse of width 10 and height 5 about (3, 4). -/
theorem drawEllipse_transform_witness :
    ∃ m', (drawEllipse exampleExt exampleRenderer 3 4 0 10 5).map Renderer.trace
        = some (exampleRenderer.trace ++ [⟨exampleRenderer.matrix, CairoCall.new_path⟩,
          ⟨m', CairoCall.arc 3 4 (10 * (1 / 2)) 0 exampleExt.two_pi⟩,
          ⟨exampleRenderer.matrix, CairoCall.close_path⟩,
          ⟨exampleRenderer.matrix,
            if exampleRenderer.bFill then CairoCall.fill else CairoCall.stroke⟩]) ∧
      (∀ px py : ℚ, cairo_matrix_transform_point m' (px, py)
        = cairo_matrix_transform_point exampleRenderer.matrix (px, 4 + 5 / 10 * (py - 4))) ∧
      (∀ X Y : ℚ,
        (∃ px py : ℚ, (px - 3) ^ 2 + (py - 4) ^ 2 = (10 / 2) ^ 2 ∧
          (X, Y) = (px, 4 + 5 / 10 * (py - 4))) ↔
        (X - 3) ^ 2 / (10 / 2) ^ 2 + (Y - 4) ^ 2 / (5 / 2) ^ 2 = 1) :=
  drawEllipse_transform exampleExt exampleRenderer 3 4 0 10 5 rfl (by norm_num) (by norm_num)

/-- The pieces of two lists of calls issued one after the other. -/
theorem pathPieces_append (E : Ext) : ∀ (a b : List CairoCall) (st : PathState),
    pathPieces E st (a ++ b) = pathPieces E st a ++ pathPieces E (pathEnd E st a) b
  | [], _, _ => rfl
  | c :: a, b, st => by
    simp [pathPieces, pathEnd, pathPieces_append E a b (pathStep E st c).1]

/-- A loop over `3 * k` indices, taken three indices at a time. -/
theorem flatMap_range_three {α : Type} (f : Nat → List α) : ∀ k : Nat,
    (List.range (3 * k)).flatMap f
      = (List.range k).flatMap (fun j => f (3 * j) ++ (f (3 * j + 1) ++ f (3 * j + 2)))
  | 0 => rfl
  | k + 1 => by
    have h : 3 * (k + 1) = ((3 * k).succ).succ.succ := by omega
    rw [h, List.range_succ, List.range_succ, List.range_succ, List.range_succ]
    simp [List.flatMap_append, flatMap_range_three f k]

/-- The calls of the triangles loop over the three indices of triangle `j`. -/
theorem wireframeBody_triangle (get : Nat → Vec3) (j : Nat) :
    wireframeBody get ofPrimitiveMode.OF_PRIMITIVE_TRIANGLES (3 * j)
      ++ (wireframeBody get ofPrimitiveMode.OF_PRIMITIVE_TRIANGLES (3 * j + 1)
      ++ wireframeBody get ofPrimitiveMode.OF_PRIMITIVE_TRIANGLES (3 * j + 2))
    = [CairoCall.move_to (get (3 * j)).x (get (3 * j)).y,
        CairoCall.line_to (get (3 * j + 1)).x (get (3 * j + 1)).y,
        CairoCall.line_to (get (3 * j + 2)).x (get (3 * j + 2)).y,
        CairoCall.line_to (get (3 * j)).x (get (3 * j)).y,
        CairoCall.move_to (get (3 * j + 2)).x (get (3 * j + 2)).y] := by
  have h1 : (3 * j + 1) % 3 = 1 := by omega
  have h2 : (3 * j + 3) % 3 = 0 := by omega
  have h3 : (3 * j + 1 + 1) % 3 = 2 := by omega
  have h4 : (3 * j + 1 + 3) % 3 = 1 := by omega
  have h5 : (3 * j + 2 + 1) % 3 = 0 := by omega
  simp [wireframeBody, h1, h2, h3, h4, h5]

/-- In triangles mode, over `3 * k` indices with `k` at least 1, the path calls are
one block of five calls for each triangle. -/
theorem wireframeCalls_triangles (get : Nat → Vec3) (k : Nat) (hk : 1 ≤ k) :
    wireframeCalls get ofPrimitiveMode.OF_PRIMITIVE_TRIANGLES (3 * k)
    = (List.range k).flatMap (fun j =>
      [CairoCall.move_to (get (3 * j)).x (get (3 * j)).y,
        CairoCall.line_to (get (3 * j + 1)).x (get (3 * j + 1)).y,
        CairoCall.line_to (get (3 * j + 2)).x (get (3 * j + 2)).y,
        CairoCall.line_to (get (3 * j)).x (get (3 * j)).y,
        CairoCall.move_to (get (3 * j + 2)).x (get (3 * j + 2)).y]) := by
  have hb0 : wireframeBody get ofPrimitiveMode.OF_PRIMITIVE_TRIANGLES 0
      = [CairoCall.move_to (get 0).x (get 0).y] := by
    simp [wireframeBody]
  have hr : List.range (3 * k) = 0 :: List.range' 1 (3 * k - 1) := by
    have h : 3 * k = (3 * k - 1) + 1 := by omega
    rw [List.range_eq_range']
    conv_lhs => rw [h, List.range'_succ]
  have key := flatMap_range_three (wireframeBody get ofPrimitiveMode.OF_PRIMITIVE_TRIANGLES) k
  rw [hr, List.flatMap_cons, hb0] at key
  simp only [wireframeBody_triangle] at key
  simp only [wireframeCalls]
  simpa using key

/-- The pieces of the triangle blocks: the three edges of each triangle, whatever
the path was before. -/
theorem pathPieces_triangle_blocks (E : Ext) (get : Nat → Vec3) :
    ∀ (l : List Nat) (st : PathState),
    pathPieces E st (l.flatMap (fun j =>
      [CairoCall.move_to (get (3 * j)).x (get (3 * j)).y,
        CairoCall.line_to (get (3 * j + 1)).x (get (3 * j + 1)).y,
        CairoCall.line_to (get (3 * j + 2)).x (get (3 * j + 2)).y,
        CairoCall.line_to (get (3 * j)).x (get (3 * j)).y,
        CairoCall.move_to (get (3 * j + 2)).x (get (3 * j + 2)).y]))
    = l.flatMap (triangleEdges get)
  | [], _ => by simp [pathPieces]
  | j :: l, st => by
    rw [List.flatMap_cons, List.flatMap_cons, pathPieces_append,
      pathPieces_triangle_blocks E get l]
    simp [pathPieces, pathStep, triangleEdges, Vec3.xy]

/-- A list of cairo calls issued in a row: they are recorded under the one matrix
and nothing else changes. -/
theorem foldl_cairo : ∀ (calls : List CairoCall) (s : Renderer),
    calls.foldl Renderer.cairo s
      = { s with trace := s.trace ++ calls.map (Issued.mk s.matrix) }
  | [], s => by simp
  | c :: calls, s => by
    rw [List.foldl_cons, foldl_cairo calls (s.cairo c)]
    simp [Renderer.cairo]

/-- The calls issued by a list of cairo calls in a row. -/
theorem issuedSince_foldl_cairo (calls : List CairoCall) (s : Renderer) :
    issuedSince s (calls.foldl Renderer.cairo s) = calls := by
  simp [foldl_cairo, issuedSince, List.map_map, Function.comp_def]

/-- The method transform reads nothing that pushMatrix writes. -/
theorem transform_pushMatrix (s : Renderer) (v : Vec3) :
    transform (pushMatrix s) v = transform s v := by
  cases ho : s.isOpen <;> cases hb : s.b3D <;> simp [transform, pushMatrix, ho, hb]

/-- The pieces of the calls of a triangles wireframe over `3 * k` indices, between
any calls `pre` before it and calls `post` that add no piece. -/
theorem pathPieces_triangles_wireframe (E : Ext) (get : Nat → Vec3) (k : Nat) (hk : 1 ≤ k)
    (pre post : List CairoCall) (st0 : PathState)
    (hpre : pathPieces E st0 pre = [])
    (hpost : ∀ st, pathPieces E st post = []) :
    pathPieces E st0
      (pre ++ wireframeCalls get ofPrimitiveMode.OF_PRIMITIVE_TRIANGLES (3 * k) ++ post)
      = (List.range k).flatMap (triangleEdges get) := by
  rw [wireframeCalls_triangles get k hk, pathPieces_append, pathPieces_append, hpre, hpost,
    pathPieces_triangle_blocks]
  simp

/-- The calls of `vertexDataCalls` do not depend on the matrix stacks. -/
theorem vertexDataCalls_pushMatrix (s : Renderer) (vs : List Vec3) (mode : ofPrimitiveMode) :
    vertexDataCalls (pushMatrix s) vs mode = vertexDataCalls s vs mode := by
  simp only [vertexDataCalls, transform_pushMatrix]

/-- On an open surface draw(vertexData, drawMode) returns, having issued the calls of
`vertexDataCalls` under the matrix current at the call. -/
theorem draw_vertexData_trace (s : Renderer) (vs : List Vec3) (mode : ofPrimitiveMode)
    (hopen : s.isOpen = true) (hne : vs.length ≠ 0) :
    ∃ s', draw_vertexData s vs mode = some s' ∧
      s'.trace = s.trace ++ (vertexDataCalls s vs mode).map (Issued.mk s.matrix) := by
  unfold draw_vertexData
  rw [if_neg hne]
  simp only [foldl_cairo, vertexDataCalls_pushMatrix]
  cases hb : s.b3D <;> simp [popMatrix, pushMatrix, hopen, hb]

/-- The warning changes nothing that the drawing reads. -/
theorem meshCalls_warnUnsupported (s : Renderer) (primitive : ofMesh) (c t n : Bool) :
    meshCalls (warnUnsupported s c t n) primitive = meshCalls s primitive := by
  unfold warnUnsupported
  split <;> simp [meshCalls, transform]

/-- The calls issued by cairo calls in a row after a warning. -/
theorem issuedSince_warnUnsupported (s : Renderer) (calls : List CairoCall) (c t n : Bool) :
    issuedSince s (calls.foldl Renderer.cairo (warnUnsupported s c t n)) = calls := by
  rw [foldl_cairo]
  unfold warnUnsupported
  split <;> simp [issuedSince, List.map_map, Function.comp_def]

/-- The calls that draw(ofMesh) issues: none for a mesh without vertices, else those
of `meshCalls`, on the copy with automatic indices when the mesh has no indices. -/
theorem draw_ofMesh_issued (s : Renderer) (primitive : ofMesh) (mode : ofPolyRenderMode)
    (c t n : Bool) :
    issuedSince s (draw_ofMesh s primitive mode c t n)
      = if primitive.vertices.length = 0 then []
        else if primitive.indices.length = 0 then meshCalls s primitive.setupIndicesAuto
        else meshCalls s primitive := by
  unfold draw_ofMesh
  by_cases hv : primitive.vertices.length = 0
  · simp only [hv, if_true]
    unfold warnUnsupported
    split <;> simp [issuedSince]
  · by_cases hi : primitive.indices.length = 0
    · simp only [hv, hi, if_true, if_false, meshCalls_warnUnsupported]
      have h := issuedSince_warnUnsupported (warnUnsupported s c t n)
        (meshCalls s primitive.setupIndicesAuto) c t n
      have hl : (warnUnsupported s c t n).trace = s.trace := by
        unfold warnUnsupported; split <;> rfl
      simpa [issuedSince, hl] using h
    · simp only [hv, hi, if_false, meshCalls_warnUnsupported]
      exact issuedSince_warnUnsupported s (meshCalls s primitive) c t n

/-- C6: on an open surface, for a list of 3k vertices (k at least 1) drawn in
OF_PRIMITIVE_TRIANGLES mode, the pieces of the path issued are exactly, for each
triangle j in order, the lines v[3j] to v[3j+1], v[3j+1] to v[3j+2], v[3j+2] to
v[3j] on the transformed vertices.  The same holds for draw(ofMesh) on a mesh in
that mode with a vertex and 3k indices, over the vertices its indices name, and
on a mesh with 3k vertices and no indices, over its vertices in order. -/
theorem triangles_wireframe_edges (E : Ext) (s : Renderer) (k : Nat) (st0 : PathState)
    (hopen : s.isOpen = true) (hk : 1 ≤ k) :
    (∀ vs : List Vec3, vs.length = 3 * k →
      ∃ s', draw_vertexData s vs ofPrimitiveMode.OF_PRIMITIVE_TRIANGLES = some s' ∧
        pathPieces E st0 (issuedSince s s')
          = (List.range k).flatMap
              (triangleEdges (fun i => transform s (vertexAt vs i)))) ∧
    (∀ (primitive : ofMesh) (renderMode : ofPolyRenderMode) (c t n : Bool),
      primitive.mode = ofPrimitiveMode.OF_PRIMITIVE_TRIANGLES →
      primitive.vertices.length ≠ 0 → primitive.indices.length = 3 * k →
      pathPieces E st0 (issuedSince s (draw_ofMesh s primitive renderMode c t n))
        = (List.range k).flatMap
            (triangleEdges (fun i => transform s (primitive.vertexOfIndex i)))) ∧
    (∀ (primitive : ofMesh) (renderMode : ofPolyRenderMode) (c t n : Bool),
      primitive.mode = ofPrimitiveMode.OF_PRIMITIVE_TRIANGLES →
      primitive.indices.length = 0 → primitive.vertices.length = 3 * k →
      pathPieces E st0 (issuedSince s (draw_ofMesh s primitive renderMode c t n))
        = (List.range k).flatMap
            (triangleEdges (fun i => transform s (vertexAt primitive.vertices i)))) := by
  refine ⟨?_, ?_, ?_⟩
  · intro vs hlen
    obtain ⟨s', h1, h2⟩ := draw_vertexData_trace s vs
      ofPrimitiveMode.OF_PRIMITIVE_TRIANGLES hopen (by omega)
    refine ⟨s', h1, ?_⟩
    have hiss : issuedSince s s'
        = vertexDataCalls s vs ofPrimitiveMode.OF_PRIMITIVE_TRIANGLES := by
      simp [issuedSince, h2, List.map_map, Function.comp_def]
    rw [hiss, vertexDataCalls, hlen]
    exact pathPieces_triangles_wireframe E _ k hk _ _ st0 (by simp [pathPieces, pathStep])
      (fun st => by simp [pathPieces, pathStep])
  · intro primitive renderMode c t n hmode hv hi
    have hi' : primitive.indices.length ≠ 0 := by omega
    rw [draw_ofMesh_issued, if_neg hv, if_neg hi', meshCalls, hmode, hi, List.append_assoc]
    exact pathPieces_triangles_wireframe E _ k hk [CairoCall.new_path, CairoCall.new_path] _
      st0 (by simp [pathPieces, pathStep])
      (fun st => by by_cases hl : s.lineWidth > 0 <;> simp [pathPieces, pathStep, hl])
  · intro primitive renderMode c t n hmode hi hv
    have hv' : primitive.vertices.length ≠ 0 := by omega
    have hi2 : primitive.setupIndicesAuto.indices.length = 3 * k := by
      simp [ofMesh.setupIndicesAuto, hv]
    have hm2 : primitive.setupIndicesAuto.mode = ofPrimitiveMode.OF_PRIMITIVE_TRIANGLES := by
      simp [ofMesh.setupIndicesAuto, hmode]
    rw [draw_ofMesh_issued, if_neg hv', if_pos hi, meshCalls, hm2, hi2, List.append_assoc]
    rw [pathPieces_triangles_wireframe E _ k hk [CairoCall.new_path, CairoCall.new_path] _
      st0 (by simp [pathPieces, pathStep])
      (fun st => by by_cases hl : s.lineWidth > 0 <;> simp [pathPieces, pathStep, hl])]
    have hget : ∀ i, i < 3 * k →
        primitive.setupIndicesAuto.vertexOfIndex i = vertexAt primitive.vertices i := by
      intro i hi3
      have hr : (List.range (3 * k)).getD i 0 = i := by
        rw [List.getD_eq_getElem _ _ (by simpa using hi3)]
        simp
      simp only [ofMesh.vertexOfIndex, ofMesh.setupIndicesAuto, vertexAt, hv, hr]
    apply List.flatMap_congr
    intro j hj
    have hj' : j < k := List.mem_range.mp hj
    simp only [triangleEdges, hget (3 * j) (by omega), hget (3 * j + 1) (by omega),
      hget (3 * j + 2) (by omega)]

/-- Witness of C6: two triangles. -/
theorem triangles_wireframe_edges_witness :
    ∃ s', draw_vertexData exampleRenderer
        [⟨0, 0, 0⟩, ⟨1, 0, 0⟩, ⟨0, 1, 0⟩, ⟨5, 5, 0⟩, ⟨6, 5, 0⟩, ⟨5, 6, 0⟩]
        ofPrimitiveMode.OF_PRIMITIVE_TRIANGLES = some s' ∧
      pathPieces exampleExt ⟨none, none⟩ (issuedSince exampleRenderer s')
        = (List.range 2).flatMap (triangleEdges (fun i => transform exampleRenderer
            (vertexAt [⟨0, 0, 0⟩, ⟨1, 0, 0⟩, ⟨0, 1, 0⟩, ⟨5, 5, 0⟩, ⟨6, 5, 0⟩, ⟨5, 6, 0⟩] i))) :=
  (triangles_wireframe_edges exampleExt exampleRenderer 2 ⟨none, none⟩ rfl (by decide)).1
    [⟨0, 0, 0⟩, ⟨1, 0, 0⟩, ⟨0, 1, 0⟩, ⟨5, 5, 0⟩, ⟨6, 5, 0⟩, ⟨5, 6, 0⟩] rfl

/-- The length of a list made of one block of four for each index below `n`. -/
theorem length_blocks {α : Type} (f : Nat → List α) (hf : ∀ p, (f p).length = 4) :
    ∀ n, ((List.range n).flatMap f).length = 4 * n
  | 0 => rfl
  | n + 1 => by
    rw [List.range_succ, List.flatMap_append, List.length_append, length_blocks f hf n]
    simp [hf]; omega

/-- A loop that overwrites the first three bytes of each block of four, on a
buffer of zeros: after `n` rounds the first `n` blocks are written. -/
theorem fill3 (g0 g1 g2 : Nat → Nat) (N : Nat) : ∀ n, n ≤ N →
    (List.range n).foldl (fun sw p =>
      ((sw.set (p * 4) (g0 p)).set (p * 4 + 1) (g1 p)).set (p * 4 + 2) (g2 p))
      (List.replicate (N * 4) 0)
    = (List.range n).flatMap (fun p => [g0 p, g1 p, g2 p, 0])
        ++ List.replicate ((N - n) * 4) 0
  | 0, _ => by simp
  | n + 1, h => by
    have hA := length_blocks (fun p => [g0 p, g1 p, g2 p, 0]) (fun _ => rfl) n
    have h4 : (N - n) * 4 = ((N - (n + 1)) * 4).succ.succ.succ.succ := by omega
    rw [List.range_succ, List.foldl_append, fill3 g0 g1 g2 N n (by omega), h4]
    simp only [List.replicate_succ, List.foldl_cons, List.foldl_nil]
    rw [List.set_append_right _ _ (by omega), List.set_append_right _ _ (by omega),
      List.set_append_right _ _ (by omega)]
    have e0 : n * 4 - ((List.range n).flatMap fun p => [g0 p, g1 p, g2 p, 0]).length = 0 := by
      omega
    have e1 : n * 4 + 1 - ((List.range n).flatMap fun p => [g0 p, g1 p, g2 p, 0]).length
        = 1 := by omega
    have e2 : n * 4 + 2 - ((List.range n).flatMap fun p => [g0 p, g1 p, g2 p, 0]).length
        = 2 := by omega
    rw [e0, e1, e2]
    simp [List.flatMap_append]

/-- A loop that overwrites all four bytes of each block of four, on a buffer of
zeros: after `n` rounds the first `n` blocks are written. -/
theorem fill4 (g0 g1 g2 g3 : Nat → Nat) (N : Nat) : ∀ n, n ≤ N →
    (List.range n).foldl (fun sw p =>
      (((sw.set (p * 4) (g0 p)).set (p * 4 + 1) (g1 p)).set (p * 4 + 2) (g2 p)).set
        (p * 4 + 3) (g3 p))
      (List.replicate (N * 4) 0)
    = (List.range n).flatMap (fun p => [g0 p, g1 p, g2 p, g3 p])
        ++ List.replicate ((N - n) * 4) 0
  | 0, _ => by simp
  | n + 1, h => by
    have hA := length_blocks (fun p => [g0 p, g1 p, g2 p, g3 p]) (fun _ => rfl) n
    have h4 : (N - n) * 4 = ((N - (n + 1)) * 4).succ.succ.succ.succ := by omega
    rw [List.range_succ, List.foldl_append, fill4 g0 g1 g2 g3 N n (by omega), h4]
    simp only [List.replicate_succ, List.foldl_cons, List.foldl_nil]
    rw [List.set_append_right _ _ (by omega), List.set_append_right _ _ (by omega),
      List.set_append_right _ _ (by omega), List.set_append_right _ _ (by omega)]
    have e0 : n * 4 - ((List.range n).flatMap fun p => [g0 p, g1 p, g2 p, g3 p]).length
        = 0 := by omega
    have e1 : n * 4 + 1 - ((List.range n).flatMap fun p => [g0 p, g1 p, g2 p, g3 p]).length
        = 1 := by omega
    have e2 : n * 4 + 2 - ((List.range n).flatMap fun p => [g0 p, g1 p, g2 p, g3 p]).length
        = 2 := by omega
    have e3 : n * 4 + 3 - ((List.range n).flatMap fun p => [g0 p, g1 p, g2 p, g3 p]).length
        = 3 := by omega
    rw [e0, e1, e2, e3]
    simp [List.flatMap_append]

/-- The entries of a list made of one block of four for each index below `n`. -/
theorem getElem?_blocks {α : Type} (f : Nat → List α) (hf : ∀ p, (f p).length = 4) :
    ∀ (n p c : Nat), p < n → c < 4 → ((List.range n).flatMap f)[4 * p + c]? = (f p)[c]?
  | 0, _, _, h, _ => by omega
  | n + 1, p, c, hp, hc => by
    have hA := length_blocks f hf n
    rw [List.range_succ, List.flatMap_append]
    by_cases h : p < n
    · rw [List.getElem?_append_left (by omega)]
      exact getElem?_blocks f hf n p c h hc
    · have hpn : p = n := by omega
      subst hpn
      rw [List.getElem?_append_right (by omega), hA]
      simp

/-- The buffer of the colour branch on a little-endian target, block by block. -/
theorem swapPixelsColor_little_endian (imgPix : Nat → Nat) (picsize : Nat) :
    swapPixelsColor true imgPix picsize = (List.range picsize).flatMap
      (fun p => [imgPix (p * 3 + 2), imgPix (p * 3 + 1), imgPix (p * 3), 0]) := by
  simp only [swapPixelsColor, if_true]
  rw [fill3 _ _ _ picsize picsize (le_refl _)]
  simp

/-- The buffer of the colour-alpha branch on a little-endian target, block by block. -/
theorem swapPixelsColorAlpha_blocks (imgPix : Nat → Nat) (picsize : Nat) :
    swapPixelsColorAlpha imgPix picsize = (List.range picsize).flatMap
      (fun p => [imgPix (p * 4 + 2), imgPix (p * 4 + 1), imgPix (p * 4), imgPix (p * 4 + 3)]) := by
  simp only [swapPixelsColorAlpha]
  rw [fill4 _ _ _ _ picsize picsize (le_refl _)]
  simp

/-- The buffer of the grayscale branch, block by block. -/
theorem swapPixelsGrayscale_blocks (imgPix : Nat → Nat) (picsize : Nat) :
    swapPixelsGrayscale imgPix picsize = (List.range picsize).flatMap
      (fun p => [imgPix p, imgPix p, imgPix p, 0]) := by
  simp only [swapPixelsGrayscale]
  rw [fill3 _ _ _ picsize picsize (le_refl _)]
  simp

/-- On an open surface, popMatrix after pushMatrix, translate, scale and a list of
cairo calls succeeds and restores the whole transform state; the calls were
issued under the translated and scaled matrix. -/
theorem popMatrix_after_push_translate_scale (s : Renderer) (hopen : s.isOpen = true)
    (x y z a b c : ℚ) (calls : List CairoCall) :
    popMatrix (calls.foldl Renderer.cairo (scale (translate (pushMatrix s) x y z) a b c))
      = some { s with
          trace := s.trace ++ calls.map
            (Issued.mk (scale (translate (pushMatrix s) x y z) a b c).matrix) } := by
  rw [foldl_cairo]
  cases hb : s.b3D <;> simp [popMatrix, scale, translate, pushMatrix, hopen, hb]

/-- C7, as stated, fails on two images.  For an image that was never allocated (no
pixels, undefined type) the amounts of `scale` are divisions by zero, not finite:
the matrix handed to cairo fails its invertibility test and the call does not end
in a state with the transform restored.  For a colour image of 32768 by 16384
pixels `picsize * 4` is above `INT_MAX`: no buffer of 4 * w * h bytes is handed
over. -/
theorem draw_ofPixels_counterexample :
    draw_ofPixels true (fun pix _ _ _ _ => pix) exampleRenderer emptyPixels
      0 0 0 100 100 0 0 100 100 = none ∧
    cairo_matrix_is_invertible_x
      (scale_matrix_x (translate (pushMatrix exampleRenderer) 0 0 0).matrix
        (XFloat.div 100 emptyPixels.width) (XFloat.div 100 emptyPixels.height)) = false ∧
    draw_ofPixels true (fun pix _ _ _ _ => pix) exampleRenderer hugePixels
      0 0 0 32768 16384 0 0 32768 16384 = none ∧
    INT_MAX < hugePixels.width * hugePixels.height * 4 := by
  have hw : hugePixels.width = 32768 := rfl
  have hh : hugePixels.height = 16384 := rfl
  have ht : hugePixels.imageType = ofImageType.OF_IMAGE_COLOR := rfl
  have hp : pixelsToDraw (fun pix _ _ _ _ => pix) hugePixels 32768 16384 0 0 32768 16384
      = hugePixels := by simp [pixelsToDraw]
  have hov : INT_MAX < hugePixels.width * hugePixels.height * 4 := by
    rw [hw, hh]; decide
  refine ⟨?_, ?_, ?_, hov⟩
  · simp [draw_ofPixels, pixelsToDraw, emptyPixels, XFloat.div, scaleX, translate,
      pushMatrix, exampleRenderer]
  · simp [cairo_matrix_is_invertible_x, scale_matrix_x, cairo_matrix_scale_x,
      cairo_matrix_multiply_x, scaleGuard, XFloat.div, XFloat.mul, XFloat.add, XFloat.sub,
      emptyPixels]
  · have hsx : scaleX (translate (pushMatrix exampleRenderer) 0 0 0)
        (XFloat.div 32768 (hugePixels.width : ℚ)) (XFloat.div 16384 (hugePixels.height : ℚ)) 1
        = some (scale (translate (pushMatrix exampleRenderer) 0 0 0)
            (32768 / (hugePixels.width : ℚ)) (16384 / (hugePixels.height : ℚ)) 1) := by
      simp [XFloat.div, scaleX, hw, hh]
    simp only [draw_ofPixels, hp, hsx, Option.some_bind, ht, if_pos hov]

/-- C7, amended: on a little-endian target and an open surface, draw(ofPixels) on
the image `pix` it converts (the source image, or its crop when a crop is asked
for), of w * h pixels with w and h not 0 and, unless its type is undefined,
4 * w * h at most `INT_MAX`: for a colour, colour-alpha or grayscale image exactly
one buffer is handed to the surface, it has 4 * w * h bytes, and for each pixel p
its bytes 4p .. 4p+3 are (B, G, R, 0) for R, G, B at input bytes 3p .. 3p+2,
respectively (B, G, R, A) for R, G, B, A at 4p .. 4p+3, respectively (g, g, g, 0)
for g at byte p.  For an image of undefined type no call is issued.  In every
case the call returns and the transform state is the one before the call. -/
theorem draw_ofPixels_little_endian (cropTo : ofPixels → ℚ → ℚ → ℚ → ℚ → ofPixels)
    (s : Renderer) (raw : ofPixels) (x y z w h sx sy sw sh : ℚ) (hopen : s.isOpen = true)
    (hw : 0 < (pixelsToDraw cropTo raw w h sx sy sw sh).width)
    (hh : 0 < (pixelsToDraw cropTo raw w h sx sy sw sh).height)
    (hint : (pixelsToDraw cropTo raw w h sx sy sw sh).imageType
        ≠ ofImageType.OF_IMAGE_UNDEFINED →
      4 * ((pixelsToDraw cropTo raw w h sx sy sw sh).width
        * (pixelsToDraw cropTo raw w h sx sy sw sh).height) ≤ INT_MAX) :
    ∃ s', draw_ofPixels true cropTo s raw x y z w h sx sy sw sh = some s' ∧
      (s'.matrix = s.matrix ∧ s'.matrixStack = s.matrixStack ∧
        s'.modelView = s.modelView ∧ s'.modelViewStack = s.modelViewStack) ∧
      ((pixelsToDraw cropTo raw w h sx sy sw sh).imageType = ofImageType.OF_IMAGE_COLOR →
        ∃ buf, paintedData (issuedSince s s') = [buf] ∧
          buf.length = 4 * ((pixelsToDraw cropTo raw w h sx sy sw sh).width
            * (pixelsToDraw cropTo raw w h sx sy sw sh).height) ∧
          ∀ p, p < (pixelsToDraw cropTo raw w h sx sy sw sh).width
              * (pixelsToDraw cropTo raw w h sx sy sw sh).height →
            buf[4 * p]? = some ((pixelsToDraw cropTo raw w h sx sy sw sh).imgPix (3 * p + 2)) ∧
            buf[4 * p + 1]?
              = some ((pixelsToDraw cropTo raw w h sx sy sw sh).imgPix (3 * p + 1)) ∧
            buf[4 * p + 2]? = some ((pixelsToDraw cropTo raw w h sx sy sw sh).imgPix (3 * p)) ∧
            buf[4 * p + 3]? = some 0) ∧
      ((pixelsToDraw cropTo raw w h sx sy sw sh).imageType
          = ofImageType.OF_IMAGE_COLOR_ALPHA →
        ∃ buf, paintedData (issuedSince s s') = [buf] ∧
          buf.length = 4 * ((pixelsToDraw cropTo raw w h sx sy sw sh).width
            * (pixelsToDraw cropTo raw w h sx sy sw sh).height) ∧
          ∀ p, p < (pixelsToDraw cropTo raw w h sx sy sw sh).width
              * (pixelsToDraw cropTo raw w h sx sy sw sh).height →
            buf[4 * p]? = some ((pixelsToDraw cropTo raw w h sx sy sw sh).imgPix (4 * p + 2)) ∧
            buf[4 * p + 1]?
              = some ((pixelsToDraw cropTo raw w h sx sy sw sh).imgPix (4 * p + 1)) ∧
            buf[4 * p + 2]? = some ((pixelsToDraw cropTo raw w h sx sy sw sh).imgPix (4 * p)) ∧
            buf[4 * p + 3]?
              = some ((pixelsToDraw cropTo raw w h sx sy sw sh).imgPix (4 * p + 3))) ∧
      ((pixelsToDraw cropTo raw w h sx sy sw sh).imageType
          = ofImageType.OF_IMAGE_GRAYSCALE →
        ∃ buf, paintedData (issuedSince s s') = [buf] ∧
          buf.length = 4 * ((pixelsToDraw cropTo raw w h sx sy sw sh).width
            * (pixelsToDraw cropTo raw w h sx sy sw sh).height) ∧
          ∀ p, p < (pixelsToDraw cropTo raw w h sx sy sw sh).width
              * (pixelsToDraw cropTo raw w h sx sy sw sh).height →
            buf[4 * p]? = some ((pixelsToDraw cropTo raw w h sx sy sw sh).imgPix p) ∧
            buf[4 * p + 1]? = some ((pixelsToDraw cropTo raw w h sx sy sw sh).imgPix p) ∧
            buf[4 * p + 2]? = some ((pixelsToDraw cropTo raw w h sx sy sw sh).imgPix p) ∧
            buf[4 * p + 3]? = some 0) ∧
      ((pixelsToDraw cropTo raw w h sx sy sw sh).imageType
          = ofImageType.OF_IMAGE_UNDEFINED → issuedSince s s' = []) := by
  generalize hpix : pixelsToDraw cropTo raw w h sx sy sw sh = pix at hw hh hint
  have hwq : (pix.width : ℚ) ≠ 0 := by exact_mod_cast (Nat.pos_iff_ne_zero.mp hw)
  have hhq : (pix.height : ℚ) ≠ 0 := by exact_mod_cast (Nat.pos_iff_ne_zero.mp hh)
  have hsx : scaleX (translate (pushMatrix s) x y z) (XFloat.div w pix.width)
      (XFloat.div h pix.height) 1
      = some (scale (translate (pushMatrix s) x y z) (w / pix.width) (h / pix.height) 1) := by
    simp [XFloat.div, scaleX, hwq, hhq]
  have hov : pix.imageType ≠ ofImageType.OF_IMAGE_UNDEFINED →
      ¬ (INT_MAX < pix.width * pix.height * 4) := fun hne => by
    have := hint hne
    omega
  have hpop := popMatrix_after_push_translate_scale s hopen x y z
    (w / pix.width) (h / pix.height) 1
  have hpop1 : ∀ c : CairoCall,
      popMatrix ((scale (translate (pushMatrix s) x y z) (w / pix.width) (h / pix.height)
        1).cairo c) = some { s with
          trace := s.trace ++ [⟨(scale (translate (pushMatrix s) x y z) (w / pix.width)
            (h / pix.height) 1).matrix, c⟩] } := fun c => hpop [c]
  have hpop0 : popMatrix (scale (translate (pushMatrix s) x y z) (w / pix.width)
      (h / pix.height) 1) = some s := by
    have := hpop []
    simpa using this
  have hlenb : ∀ (g0 g1 g2 g3 : Nat → Nat),
      ((List.range (pix.width * pix.height)).flatMap
          (fun p => [g0 p, g1 p, g2 p, g3 p])).length = 4 * (pix.width * pix.height) :=
    fun g0 g1 g2 g3 => length_blocks (fun p => [g0 p, g1 p, g2 p, g3 p]) (fun _ => rfl) _
  have hidx : ∀ (g0 g1 g2 g3 : Nat → Nat) (p : Nat), p < pix.width * pix.height →
      ((List.range (pix.width * pix.height)).flatMap
          (fun p => [g0 p, g1 p, g2 p, g3 p])).length = 4 * (pix.width * pix.height) ∧
      ((List.range (pix.width * pix.height)).flatMap
          (fun p => [g0 p, g1 p, g2 p, g3 p]))[4 * p]? = some (g0 p) ∧
      ((List.range (pix.width * pix.height)).flatMap
          (fun p => [g0 p, g1 p, g2 p, g3 p]))[4 * p + 1]? = some (g1 p) ∧
      ((List.range (pix.width * pix.height)).flatMap
          (fun p => [g0 p, g1 p, g2 p, g3 p]))[4 * p + 2]? = some (g2 p) ∧
      ((List.range (pix.width * pix.height)).flatMap
          (fun p => [g0 p, g1 p, g2 p, g3 p]))[4 * p + 3]? = some (g3 p) := by
    intro g0 g1 g2 g3 p hp
    have hb := getElem?_blocks (fun p => [g0 p, g1 p, g2 p, g3 p]) (fun _ => rfl)
      (pix.width * pix.height) p
    refine ⟨length_blocks (fun p => [g0 p, g1 p, g2 p, g3 p]) (fun _ => rfl) _, ?_, ?_, ?_, ?_⟩
    · simpa using hb 0 hp (by omega)
    · simpa using hb 1 hp (by omega)
    · simpa using hb 2 hp (by omega)
    · simpa using hb 3 hp (by omega)
  cases htype : pix.imageType
  · refine Exists.intro ?w1 (And.intro ?h11 ?h21)
    case h11 =>
      simp only [draw_ofPixels, hpix, hsx, Option.some_bind, htype,
        if_neg (hov (by simp [htype]))]
      exact hpop1 _
    case h21 =>
      refine ⟨⟨rfl, rfl, rfl, rfl⟩, by simp, by simp, ?_, by simp⟩
      intro _
      refine ⟨swapPixelsGrayscale pix.imgPix (pix.width * pix.height), ?_, ?_⟩
      · simp [issuedSince, paintedData]
      · rw [swapPixelsGrayscale_blocks]
        refine ⟨hlenb _ _ _ _, fun p hp => ?_⟩
        obtain ⟨_, h0, h1, h2, h3⟩ := hidx pix.imgPix pix.imgPix pix.imgPix (fun _ => 0) p hp
        exact ⟨h0, h1, h2, h3⟩
  · refine Exists.intro ?w2 (And.intro ?h12 ?h22)
    case h12 =>
      simp only [draw_ofPixels, hpix, hsx, Option.some_bind, htype,
        if_neg (hov (by simp [htype]))]
      exact hpop1 _
    case h22 =>
      refine ⟨⟨rfl, rfl, rfl, rfl⟩, ?_, by simp, by simp, by simp⟩
      intro _
      refine ⟨swapPixelsColor true pix.imgPix (pix.width * pix.height), ?_, ?_⟩
      · simp [issuedSince, paintedData]
      · rw [swapPixelsColor_little_endian]
        refine ⟨hlenb _ _ _ _, fun p hp => ?_⟩
        obtain ⟨_, h0, h1, h2, h3⟩ := hidx (fun p => pix.imgPix (p * 3 + 2))
          (fun p => pix.imgPix (p * 3 + 1)) (fun p => pix.imgPix (p * 3)) (fun _ => 0) p hp
        simp only [Nat.mul_comm p 3] at h0 h1 h2
        exact ⟨h0, h1, h2, h3⟩
  · refine Exists.intro ?w3 (And.intro ?h13 ?h23)
    case h13 =>
      simp only [draw_ofPixels, hpix, hsx, Option.some_bind, htype, if_true,
        if_neg (hov (by simp [htype]))]
      exact hpop1 _
    case h23 =>
      refine ⟨⟨rfl, rfl, rfl, rfl⟩, by simp, ?_, by simp, by simp⟩
      intro _
      refine ⟨swapPixelsColorAlpha pix.imgPix (pix.width * pix.height), ?_, ?_⟩
      · simp [issuedSince, paintedData]
      · rw [swapPixelsColorAlpha_blocks]
        refine ⟨hlenb _ _ _ _, fun p hp => ?_⟩
        obtain ⟨_, h0, h1, h2, h3⟩ := hidx (fun p => pix.imgPix (p * 4 + 2))
          (fun p => pix.imgPix (p * 4 + 1)) (fun p => pix.imgPix (p * 4))
          (fun p => pix.imgPix (p * 4 + 3)) p hp
        simp only [Nat.mul_comm p 4] at h0 h1 h2 h3
        exact ⟨h0, h1, h2, h3⟩
  · refine Exists.intro ?w4 (And.intro ?h14 ?h24)
    case h14 =>
      simp only [draw_ofPixels, hpix, hsx, Option.some_bind, htype]
      exact hpop0
    case h24 =>
      refine ⟨⟨rfl, rfl, rfl, rfl⟩, by simp, by simp, by simp, ?_⟩
      intro _
      simp [issuedSince]

/-- Witness of C7: a colour image of two pixels, drawn whole. -/
theorem draw_ofPixels_little_endian_witness :
    ∃ s' buf, draw_ofPixels true (fun pix _ _ _ _ => pix) exampleRenderer examplePixels
        0 0 0 1 2 0 0 1 2 = some s' ∧
      paintedData (issuedSince exampleRenderer s') = [buf] ∧ buf.length = 8 ∧
      buf[4]? = some 6 ∧ buf[5]? = some 5 ∧ buf[6]? = some 4 ∧ buf[7]? = some 0 := by
  have hpix : pixelsToDraw (fun pix _ _ _ _ => pix) examplePixels 1 2 0 0 1 2
      = examplePixels := by simp [pixelsToDraw]
  obtain ⟨s', h1, _, hc, _, _, _⟩ := draw_ofPixels_little_endian (fun pix _ _ _ _ => pix)
    exampleRenderer examplePixels 0 0 0 1 2 0 0 1 2 rfl
    (by rw [hpix]; decide) (by rw [hpix]; decide) (fun _ => by rw [hpix]; decide)
  rw [hpix] at hc
  obtain ⟨buf, hb1, hb2, hb3⟩ := hc rfl
  obtain ⟨h4, h5, h6, h7⟩ := hb3 1 (by decide)
  exact ⟨s', buf, h1, hb1, hb2, h4, h5, h6, h7⟩

/-- C8: setup resolves FROM_FILE_EXTENSION from the extension of the file name: SVG
exactly for ".svg" and ".SVG", PDF exactly for ".pdf" and ".PDF", IMAGE for every
other extension; so whatever type setup is called with, the type it stores is one
of PDF, SVG, IMAGE, and the surface-creation switch never takes the branch that
reports an undetermined type. -/
theorem setup_type_resolution (extension : String → String) (filename : String) :
    (((setup_type extension filename Type_.FROM_FILE_EXTENSION).1 = Type_.SVG ↔
        (extension filename = ".svg" ∨ extension filename = ".SVG")) ∧
      ((setup_type extension filename Type_.FROM_FILE_EXTENSION).1 = Type_.PDF ↔
        (extension filename = ".pdf" ∨ extension filename = ".PDF")) ∧
      ((setup_type extension filename Type_.FROM_FILE_EXTENSION).1 = Type_.IMAGE ↔
        ¬ (extension filename = ".svg" ∨ extension filename = ".SVG" ∨
          extension filename = ".pdf" ∨ extension filename = ".PDF"))) ∧
    ∀ _type : Type_,
      ((setup_type extension filename _type).1 = Type_.PDF ∨
        (setup_type extension filename _type).1 = Type_.SVG ∨
        (setup_type extension filename _type).1 = Type_.IMAGE) ∧
      (setup_type extension filename _type).2 ≠ SurfaceBranch.fatal_undetermined_type := by
  have e1 : (".svg" : String) ≠ ".pdf" := by decide
  have e2 : (".svg" : String) ≠ ".PDF" := by decide
  have e3 : (".SVG" : String) ≠ ".pdf" := by decide
  have e4 : (".SVG" : String) ≠ ".PDF" := by decide
  refine ⟨?_, ?_⟩
  · simp only [setup_type, resolveType, if_true]
    by_cases h1 : extension filename = ".svg" ∨ extension filename = ".SVG"
    · rcases h1 with h | h <;> simp [h, e1, e2, e3, e4]
    · by_cases h2 : extension filename = ".pdf" ∨ extension filename = ".PDF"
      · rcases h2 with h | h <;> simp [h, e1.symm, e2.symm, e3.symm, e4.symm]
      · rw [if_neg h1, if_neg h2]
        push_neg at h1 h2
        simp [h1, h2]
  · intro _type
    have hne : resolveType (extension filename) _type ≠ Type_.FROM_FILE_EXTENSION := by
      unfold resolveType
      split_ifs with h0 h1 h2
      · simp
      · simp
      · simp
      · exact h0
    simp only [setup_type]
    generalize resolveType (extension filename) _type = r at hne
    cases r
    · refine ⟨by simp, ?_⟩
      by_cases hf : filename = "" <;> simp [surfaceBranch, hf]
    · refine ⟨by simp, ?_⟩
      by_cases hf : filename = "" <;> simp [surfaceBranch, hf]
    · exact ⟨by simp, by simp [surfaceBranch]⟩
    · exact absurd rfl hne

/-- A pushStyle keeps the history within the bound. -/
theorem pushStyle_length_le {σ : Type} (maxStyleHistory : Nat) (s : StyleState σ)
    (h : s.styleHistory.length ≤ maxStyleHistory) :
    (pushStyle maxStyleHistory s).styleHistory.length ≤ maxStyleHistory := by
  unfold pushStyle
  by_cases hgt : (s.styleHistory ++ [s.currentStyle]).length > maxStyleHistory
  · simp only [hgt, if_true, List.length_tail]
    simp only [List.length_append, List.length_singleton] at hgt ⊢
    omega
  · simp only [hgt, if_false]
    omega

/-- A popStyle does not lengthen the history. -/
theorem popStyle_length_le {σ : Type} (s : StyleState σ) :
    (popStyle s).styleHistory.length ≤ s.styleHistory.length := by
  unfold popStyle
  cases h : s.styleHistory.getLast? with
  | none => simp
  | some style => simp

/-- C9: from a style history within the bound OF_MAX_STYLE_HISTORY (the empty
history of a new renderer is), any sequence of pushStyle and popStyle calls, and of
changes of the current style, leaves at most OF_MAX_STYLE_HISTORY entries; and a
pushStyle on a full history drops the oldest entry and appends the current style:
the history is then the old one without its first entry followed by the current
style, still of full length, and (the bound being positive) its last entry is the
style just pushed. -/
theorem styleHistory_bounded {σ : Type} (maxStyleHistory : Nat) (ops : List (StyleOp σ))
    (s : StyleState σ) (h : s.styleHistory.length ≤ maxStyleHistory) :
    (applyStyleOps maxStyleHistory s ops).styleHistory.length ≤ maxStyleHistory ∧
    (s.styleHistory.length = maxStyleHistory →
      (pushStyle maxStyleHistory s).styleHistory
          = (s.styleHistory ++ [s.currentStyle]).drop 1 ∧
        (pushStyle maxStyleHistory s).styleHistory.length = maxStyleHistory ∧
        (0 < maxStyleHistory →
          (pushStyle maxStyleHistory s).styleHistory
              = s.styleHistory.drop 1 ++ [s.currentStyle] ∧
            (pushStyle maxStyleHistory s).styleHistory.getLast? = some s.currentStyle)) := by
  constructor
  · induction ops generalizing s with
    | nil => exact h
    | cons op ops ih =>
      cases op with
      | pushStyle => exact ih _ (pushStyle_length_le maxStyleHistory s h)
      | popStyle => exact ih _ (le_trans (popStyle_length_le s) h)
      | setStyle style => exact ih _ h
  · intro hfull
    have hgt : (s.styleHistory ++ [s.currentStyle]).length > maxStyleHistory := by
      simp only [List.length_append, List.length_singleton]; omega
    have hpush : (pushStyle maxStyleHistory s).styleHistory
        = (s.styleHistory ++ [s.currentStyle]).drop 1 := by
      simp only [pushStyle, hgt, if_true]
      cases s.styleHistory ++ [s.currentStyle] <;> rfl
    refine ⟨hpush, ?_, fun hpos => ?_⟩
    · rw [hpush]; simp only [List.length_drop, List.length_append, List.length_singleton]
      omega
    · have hd : (s.styleHistory ++ [s.currentStyle]).drop 1
          = s.styleHistory.drop 1 ++ [s.currentStyle] := by
        cases hs : s.styleHistory with
        | nil => rw [hs] at hfull; simp at hfull; omega
        | cons a l => simp
      rw [hpush, hd]
      exact ⟨rfl, by simp⟩

/-- Witness of C9: with a bound of 2, on the full history [1, 2] and current style 3,
after the calls pushStyle, setStyle 4, pushStyle, popStyle. -/
theorem styleHistory_bounded_witness :
    (applyStyleOps 2 (⟨3, [1, 2]⟩ : StyleState Nat)
      [StyleOp.pushStyle, StyleOp.setStyle 4, StyleOp.pushStyle, StyleOp.popStyle]
      ).styleHistory.length ≤ 2 ∧
    (pushStyle 2 (⟨3, [1, 2]⟩ : StyleState Nat)).styleHistory = [2, 3] :=
  ⟨(styleHistory_bounded 2
      [StyleOp.pushStyle, StyleOp.setStyle 4, StyleOp.pushStyle, StyleOp.popStyle]
      (⟨3, [1, 2]⟩ : StyleState Nat) (by decide)).1,
    ((styleHistory_bounded 2 [] (⟨3, [1, 2]⟩ : StyleState Nat) (by decide)).2 rfl).1⟩

/-- C10, on the code: viewport called with width 0 and height 0 on a renderer whose
original viewport is 100 by 100 stores a rectangle of width 0 and height 0: only a
negative width or height is replaced by the original one. -/
theorem viewport_zero_size_kept :
    (viewport exampleRenderer 10 20 0 0 true).viewportRect = ⟨10, -20, 0, 0⟩ ∧
    exampleRenderer.originalViewport = ⟨0, 0, 100, 100⟩ ∧
    (viewport exampleRenderer 10 20 (-1) (-1) true).viewportRect = ⟨10, -20, 100, 100⟩ := by
  refine ⟨?_, rfl, ?_⟩ <;> simp [viewport, exampleRenderer, Renderer.cairo]

/-- The Bezier calls of a run of curve points, by index: call `k` is computed from
the points `k .. k+3`. -/
theorem catmullCalls_eq_map : ∀ (pts : List Vec3),
    catmullCalls pts = (List.range (pts.length - 3)).map (fun k =>
      curveCall (pts.getD k default) (pts.getD (k + 1) default) (pts.getD (k + 2) default)
        (pts.getD (k + 3) default))
  | [] => by simp [catmullCalls]
  | [_] => by simp [catmullCalls]
  | [_, _] => by simp [catmullCalls]
  | [_, _, _] => by simp [catmullCalls]
  | p1 :: p2 :: p3 :: p4 :: rest => by
    have hlen : (p1 :: p2 :: p3 :: p4 :: rest).length - 3
        = ((p2 :: p3 :: p4 :: rest).length - 3) + 1 := by simp
    rw [catmullCalls, catmullCalls_eq_map (p2 :: p3 :: p4 :: rest), hlen,
      List.range_succ_eq_map, List.map_cons, List.map_map]
    refine congrArg₂ List.cons ?_ ?_
    · simp [curveCall]
    · apply List.map_congr_left
      intro k _
      simp

/-- The `arc` and `arcNegative` branches on an open surface: the command returns,
the window is emptied, the one arc call is issued under `arcMatrix`, and the
transform state is as before. -/
theorem drawArc_spec (E : Ext) (s : Renderer) (command : Command)
    (mk : ℚ → ℚ → ℚ → ℚ → ℚ → CairoCall) (hopen : s.isOpen = true) :
    drawArc E s command mk = some { s with
      curvePoints := []
      trace := s.trace ++ [⟨arcMatrix s.matrix command,
        mk command.to_.x command.to_.y command.radiusX (E.ofDegToRad command.angleBegin)
          (E.ofDegToRad command.angleEnd)⟩] } := by
  by_cases hr : command.radiusX = command.radiusY
  · simp [drawArc, arcMatrix, hr, Renderer.cairo]
  · cases hb : s.b3D <;>
      by_cases h0 : command.radiusY / command.radiusX = 0 <;>
      simp [drawArc, arcMatrix, hr, Renderer.cairo, pushMatrix, popMatrix, translate, scale,
        hopen, hb, h0]

/-- One command on an open surface: it returns, the surface stays open, a window of
at most three points stays one, and every command other than curveTo and close
empties the window. -/
theorem draw_Command_window (E : Ext) (s : Renderer) (c : Command)
    (hopen : s.isOpen = true) :
    ∃ s', draw_Command E s c = some s' ∧ s'.isOpen = true ∧
      (s.curvePoints.length ≤ 3 → s'.curvePoints.length ≤ 3) ∧
      (c.type ≠ CommandType.curveTo → c.type ≠ CommandType.close → s'.curvePoints = []) := by
  cases hc : c.type
  case moveTo =>
    exact ⟨({ s with curvePoints := [] } : Renderer).cairo (.move_to c.to_.x c.to_.y),
      by simp [draw_Command, hopen, hc], by simp [Renderer.cairo, hopen]⟩
  case lineTo =>
    exact ⟨({ s with curvePoints := [] } : Renderer).cairo (.line_to c.to_.x c.to_.y),
      by simp [draw_Command, hopen, hc], by simp [Renderer.cairo, hopen]⟩
  case bezierTo =>
    exact ⟨({ s with curvePoints := [] } : Renderer).cairo
        (.curve_to c.cp1.x c.cp1.y c.cp2.x c.cp2.y c.to_.x c.to_.y),
      by simp [draw_Command, hopen, hc], by simp [Renderer.cairo, hopen]⟩
  case quadBezierTo =>
    exact ⟨({ s with curvePoints := [] } : Renderer).cairo
        (.curve_to c.cp1.x c.cp1.y c.cp2.x c.cp2.y c.to_.x c.to_.y),
      by simp [draw_Command, hopen, hc], by simp [Renderer.cairo, hopen]⟩
  case close =>
    exact ⟨s.cairo .close_path, by simp [draw_Command, hopen, hc],
      by simp [Renderer.cairo, hopen]⟩
  case arc =>
    have hd : draw_Command E s c = drawArc E s c CairoCall.arc := by
      simp [draw_Command, hopen, hc]
    rw [hd, drawArc_spec E s c CairoCall.arc hopen]
    exact ⟨_, rfl, by simp [hopen]⟩
  case arcNegative =>
    have hd : draw_Command E s c = drawArc E s c CairoCall.arc_negative := by
      simp [draw_Command, hopen, hc]
    rw [hd, drawArc_spec E s c CairoCall.arc_negative hopen]
    exact ⟨_, rfl, by simp [hopen]⟩
  case curveTo =>
    refine ⟨drawCurveTo s c, by simp [draw_Command, hopen, hc], ?_⟩
    rcases hs : s.curvePoints with _ | ⟨p1, _ | ⟨p2, _ | ⟨p3, _ | ⟨p4, r⟩⟩⟩⟩
    · simp [drawCurveTo, hs, hopen]
    · simp [drawCurveTo, hs, hopen]
    · simp [drawCurveTo, hs, hopen]
    · simp [drawCurveTo, hs, hopen, Renderer.cairo]
    · refine ⟨?_, fun h => ?_, by simp⟩
      · simp only [drawCurveTo, hs]
        split <;> simp_all [Renderer.cairo]
      · simp at h

/-- Any list of commands on an open surface with a window of at most three points:
the run returns, with the surface open and a window of at most three points. -/
theorem draw_Commands_window (E : Ext) : ∀ (cmds : List Command) (s : Renderer),
    s.isOpen = true → s.curvePoints.length ≤ 3 →
    ∃ s', draw_Commands E s cmds = some s' ∧ s'.isOpen = true ∧ s'.curvePoints.length ≤ 3
  | [], s, hopen, hlen => ⟨s, rfl, hopen, hlen⟩
  | c :: cs, s, hopen, hlen => by
    obtain ⟨s1, h1, h2, h3, _⟩ := draw_Command_window E s c hopen
    obtain ⟨s', h4, h5, h6⟩ := draw_Commands_window E cs s1 h2 (h3 hlen)
    exact ⟨s', by simp only [draw_Commands, h1, Option.some_bind, h4], h5, h6⟩

/-- C11: on an open surface, from an empty curve-point window, a run of n curveTo
commands with points q0 .. q(n-1) issues exactly the n - 3 Bezier calls (none when
n < 4) of which the k-th is computed from q(k), q(k+1), q(k+2), q(k+3), and leaves
in the window the last min(n, 3) points in order; from a window of at most three
points, any list of commands leaves a window of at most three points; and each
moveTo, lineTo, bezierTo, quadBezierTo, arc and arcNegative command leaves the
window empty. -/
theorem curve_window (E : Ext) (s : Renderer) (hopen : s.isOpen = true) :
    (∀ cmds : List Command, (∀ c ∈ cmds, c.type = CommandType.curveTo) →
      s.curvePoints = [] →
      ∃ s', draw_Commands E s cmds = some s' ∧
        issuedSince s s' = (List.range (cmds.length - 3)).map (fun k =>
          curveCall (pointAt cmds k) (pointAt cmds (k + 1)) (pointAt cmds (k + 2))
            (pointAt cmds (k + 3))) ∧
        (issuedSince s s').length = cmds.length - 3 ∧
        s'.curvePoints = (cmds.map Command.to_).drop (cmds.length - 3) ∧
        s'.curvePoints.length = min cmds.length 3) ∧
    (∀ cmds : List Command, s.curvePoints.length ≤ 3 →
      ∃ s', draw_Commands E s cmds = some s' ∧ s'.curvePoints.length ≤ 3) ∧
    (∀ c : Command, c.type ≠ CommandType.curveTo → c.type ≠ CommandType.close →
      ∃ s', draw_Command E s c = some s' ∧ s'.curvePoints = []) := by
  refine ⟨?_, ?_, ?_⟩
  · intro cmds hc hw
    obtain ⟨s', h1, h2, h3, _, _⟩ := draw_curveTo_run E cmds hc s hopen (by simp [hw])
    have hiss : issuedSince s s' = (List.range (cmds.length - 3)).map (fun k =>
          curveCall (pointAt cmds k) (pointAt cmds (k + 1)) (pointAt cmds (k + 2))
            (pointAt cmds (k + 3))) := by
      simp only [issuedSince, h2, hw, List.nil_append, List.drop_left, List.map_map]
      rw [show (Issued.call ∘ Issued.mk s.matrix) = id from rfl, List.map_id,
        catmullCalls_eq_map]
      simp [pointAt]
    refine ⟨s', h1, hiss, by rw [hiss]; simp, ?_, ?_⟩
    · rw [h3, hw]; simp [lastThree]
    · rw [h3, hw]; simp only [lastThree, List.nil_append, List.length_drop, List.length_map]
      omega
  · intro cmds hlen
    obtain ⟨s', h1, _, h3⟩ := draw_Commands_window E cmds s hopen hlen
    exact ⟨s', h1, h3⟩
  · intro c h1 h2
    obtain ⟨s', h3, _, _, h5⟩ := draw_Command_window E s c hopen
    exact ⟨s', h3, h5 h1 h2⟩

/-- Witness of C11: five curveTo commands from an empty window. -/
theorem curve_window_witness :
    ∃ s', draw_Commands exampleExt exampleRenderer
        (exampleCommand CommandType.curveTo 0 0 :: exampleCurveRun) = some s' ∧
      (issuedSince exampleRenderer s').length = 2 ∧
      s'.curvePoints = [⟨2, 2, 0⟩, ⟨3, 3, 0⟩, ⟨4, 4, 0⟩] := by
  obtain ⟨s', h1, _, h3, h4, _⟩ := (curve_window exampleExt exampleRenderer rfl).1
    (exampleCommand CommandType.curveTo 0 0 :: exampleCurveRun)
    (by simp [exampleCurveRun, exampleCommand]) rfl
  exact ⟨s', h1, h3, by simpa [exampleCurveRun, exampleCommand] using h4⟩

/-- C12: on an open surface, an arc or arcNegative command with non-zero radii
issues its one circular arc of radius radiusX about command.to = (cx, cy) under a
matrix m' such that: when radiusX differs from radiusY, m' maps (px, py) to where
the matrix before the command maps (px, cy + (radiusY/radiusX) * (py - cy)); when
the radii are equal, m' is the matrix before the command.  After the command the
matrix, the modelView matrix and both matrix stacks are those before it. -/
theorem arc_transform (E : Ext) (s : Renderer) (command : Command)
    (hopen : s.isOpen = true)
    (htype : command.type = CommandType.arc ∨ command.type = CommandType.arcNegative)
    (hrx : command.radiusX ≠ 0) (hry : command.radiusY ≠ 0) :
    ∃ s' m', draw_Command E s command = some s' ∧
      s'.trace = s.trace ++ [⟨m',
        (if command.type = CommandType.arc then CairoCall.arc else CairoCall.arc_negative)
          command.to_.x command.to_.y command.radiusX (E.ofDegToRad command.angleBegin)
          (E.ofDegToRad command.angleEnd)⟩] ∧
      (command.radiusX ≠ command.radiusY →
        ∀ px py : ℚ, cairo_matrix_transform_point m' (px, py)
          = cairo_matrix_transform_point s.matrix
              (px, command.to_.y + command.radiusY / command.radiusX * (py - command.to_.y))) ∧
      (command.radiusX = command.radiusY → m' = s.matrix) ∧
      s'.matrix = s.matrix ∧ s'.matrixStack = s.matrixStack ∧
      s'.modelView = s.modelView ∧ s'.modelViewStack = s.modelViewStack := by
  have hr : command.radiusY / command.radiusX ≠ 0 := div_ne_zero hry hrx
  have hd : ∃ mk, draw_Command E s command = drawArc E s command mk ∧
      mk = (if command.type = CommandType.arc then CairoCall.arc
        else CairoCall.arc_negative) := by
    rcases htype with h | h
    · exact ⟨CairoCall.arc, by simp [draw_Command, hopen, h], by simp [h]⟩
    · exact ⟨CairoCall.arc_negative, by simp [draw_Command, hopen, h], by simp [h]⟩
  obtain ⟨mk, hd1, hd2⟩ := hd
  rw [hd1, drawArc_spec E s command mk hopen, hd2]
  refine ⟨_, arcMatrix s.matrix command, rfl, rfl, ?_, ?_, rfl, rfl, rfl, rfl⟩
  · intro hne px py
    simp only [arcMatrix, hne, hr, ne_eq, not_false_eq_true, if_true, if_false,
      cairo_matrix_transform_point, cairo_matrix_translate, cairo_matrix_scale,
      cairo_matrix_multiply, cairo_matrix_init_translate, cairo_matrix_init_scale]
    refine Prod.ext ?_ ?_ <;> simp <;> field_simp <;> ring
  · intro he
    simp [arcMatrix, he]

/-- Witness of C12: the arc about (3, 4) with radii 10 and 5. -/
theorem arc_transform_witness :
    ∃ s' m', draw_Command exampleExt exampleRenderer exampleArcCommand = some s' ∧
      s'.trace = exampleRenderer.trace ++ [⟨m',
        CairoCall.arc 3 4 10 (exampleExt.ofDegToRad 0) (exampleExt.ofDegToRad 90)⟩] ∧
      (∀ px py : ℚ, cairo_matrix_transform_point m' (px, py)
          = cairo_matrix_transform_point exampleRenderer.matrix
              (px, 4 + 5 / 10 * (py - 4))) ∧
      s'.matrix = exampleRenderer.matrix ∧ s'.matrixStack = exampleRenderer.matrixStack := by
  obtain ⟨s', m', h1, h2, h3, _, h5, h6, _, _⟩ := arc_transform exampleExt exampleRenderer
    exampleArcCommand rfl (Or.inl rfl) (by norm_num [exampleArcCommand])
    (by norm_num [exampleArcCommand])
  exact ⟨s', m', h1, h2, h3 (by norm_num [exampleArcCommand]), h5, h6⟩

/-- The pieces of the strip loop from index `a` (at least 1) on, when the current
point is vertex `a - 1`: the two new edges of each triangle. -/
theorem pathPieces_strip_loop (E : Ext) (get : Nat → Vec3) :
    ∀ (m a : Nat) (start : Option (ℚ × ℚ)),
    pathPieces E ⟨some (get (a - 1)).xy, start⟩
      ((List.range' a m).flatMap
        (wireframeBody get ofPrimitiveMode.OF_PRIMITIVE_TRIANGLE_STRIP))
    = (List.range' a m).flatMap (stripTriangleEdges get)
  | 0, _, _ => by simp [pathPieces]
  | m + 1, a, start => by
    have ih := pathPieces_strip_loop E get m (a + 1) (some (get a).xy)
    simp only [Nat.add_sub_cancel] at ih
    rw [List.range'_succ, List.flatMap_cons, List.flatMap_cons, pathPieces_append]
    simp only [wireframeBody, pathPieces, pathStep, pathEnd, List.append_nil]
    rw [show ((get a).x, (get a).y) = (get a).xy from rfl, ih]
    simp [stripTriangleEdges, Vec3.xy]

/-- In strip mode over `n` indices, `n` at least 3, the pieces of the path calls are
the first two edges, a line of zero length at vertex 2, the edge from vertex 2 to
vertex 0, and the two new edges of each further triangle. -/
theorem pathPieces_strip_wireframe (E : Ext) (get : Nat → Vec3) (n : Nat) (hn : 3 ≤ n)
    (pre post : List CairoCall) (st0 : PathState)
    (hpre : pathPieces E st0 pre = [])
    (hpost : ∀ st, pathPieces E st post = []) :
    pathPieces E st0
      (pre ++ wireframeCalls get ofPrimitiveMode.OF_PRIMITIVE_TRIANGLE_STRIP n ++ post)
    = [Piece.line (get 0).xy (get 1).xy, Piece.line (get 1).xy (get 2).xy,
        Piece.line (get 2).xy (get 2).xy, Piece.line (get 2).xy (get 0).xy]
      ++ (List.range' 3 (n - 3)).flatMap (stripTriangleEdges get) := by
  have hr : List.range' 2 (n - 2) = 2 :: List.range' 3 (n - 3) := by
    have h : n - 2 = (n - 3) + 1 := by omega
    rw [h, List.range'_succ]
  have hloop := pathPieces_strip_loop E get (n - 3) 3 (some (get 2).xy)
  rw [pathPieces_append, pathPieces_append, hpre, hpost]
  simp only [wireframeCalls, if_true, hr, List.flatMap_cons, List.nil_append,
    List.append_nil, List.cons_append, List.append_assoc, pathPieces, pathStep,
    wireframeBody]
  rw [show ((get 2).x, (get 2).y) = (get 2).xy from rfl, hloop]
  simp [Vec3.xy]

/-- Dropping the line of zero length at vertex 2 from the pieces of a strip leaves,
among the lines of non-zero length, those of `stripEdges`. -/
theorem filter_strip_pieces (get : Nat → Vec3) (n : Nat) (pieces : List Piece)
    (h : pieces = [Piece.line (get 0).xy (get 1).xy, Piece.line (get 1).xy (get 2).xy,
        Piece.line (get 2).xy (get 2).xy, Piece.line (get 2).xy (get 0).xy]
      ++ (List.range' 3 (n - 3)).flatMap (stripTriangleEdges get)) :
    pieces.filter (fun q => !q.isDegenerate)
      = (stripEdges get n).filter (fun q => !q.isDegenerate) := by
  subst h
  simp [stripEdges, List.filter_cons, Piece.isDegenerate]

/-- C13: on an open surface, for n at least 3 vertices drawn in
OF_PRIMITIVE_TRIANGLE_STRIP mode, the pieces of the path issued are the lines
v0-v1, v1-v2, a line of zero length at v2, v2-v0 and, for each i with 3 ≤ i < n,
v(i-1)-v(i) and v(i)-v(i-2), on the transformed vertices; so the lines of non-zero
length are those of the list v0-v1, v1-v2, v2-v0, v(i-1)-v(i), v(i)-v(i-2), each
drawn once.  The same holds for draw(ofMesh) on a mesh in that mode with a vertex
and n indices. -/
theorem strip_wireframe_edges (E : Ext) (s : Renderer) (n : Nat) (st0 : PathState)
    (hopen : s.isOpen = true) (hn : 3 ≤ n) :
    (∀ vs : List Vec3, vs.length = n →
      ∃ s', draw_vertexData s vs ofPrimitiveMode.OF_PRIMITIVE_TRIANGLE_STRIP = some s' ∧
        pathPieces E st0 (issuedSince s s')
          = [Piece.line (transform s (vertexAt vs 0)).xy (transform s (vertexAt vs 1)).xy,
              Piece.line (transform s (vertexAt vs 1)).xy (transform s (vertexAt vs 2)).xy,
              Piece.line (transform s (vertexAt vs 2)).xy (transform s (vertexAt vs 2)).xy,
              Piece.line (transform s (vertexAt vs 2)).xy (transform s (vertexAt vs 0)).xy]
            ++ (List.range' 3 (n - 3)).flatMap
              (stripTriangleEdges (fun i => transform s (vertexAt vs i))) ∧
        (pathPieces E st0 (issuedSince s s')).filter (fun q => !q.isDegenerate)
          = (stripEdges (fun i => transform s (vertexAt vs i)) n).filter
              (fun q => !q.isDegenerate)) ∧
    (∀ (primitive : ofMesh) (renderMode : ofPolyRenderMode) (c t nrm : Bool),
      primitive.mode = ofPrimitiveMode.OF_PRIMITIVE_TRIANGLE_STRIP →
      primitive.vertices.length ≠ 0 → primitive.indices.length = n →
      pathPieces E st0 (issuedSince s (draw_ofMesh s primitive renderMode c t nrm))
          = [Piece.line (transform s (primitive.vertexOfIndex 0)).xy
                (transform s (primitive.vertexOfIndex 1)).xy,
              Piece.line (transform s (primitive.vertexOfIndex 1)).xy
                (transform s (primitive.vertexOfIndex 2)).xy,
              Piece.line (transform s (primitive.vertexOfIndex 2)).xy
                (transform s (primitive.vertexOfIndex 2)).xy,
              Piece.line (transform s (primitive.vertexOfIndex 2)).xy
                (transform s (primitive.vertexOfIndex 0)).xy]
            ++ (List.range' 3 (n - 3)).flatMap
              (stripTriangleEdges (fun i => transform s (primitive.vertexOfIndex i))) ∧
        (pathPieces E st0 (issuedSince s (draw_ofMesh s primitive renderMode c t nrm))).filter
            (fun q => !q.isDegenerate)
          = (stripEdges (fun i => transform s (primitive.vertexOfIndex i)) n).filter
              (fun q => !q.isDegenerate)) := by
  refine ⟨?_, ?_⟩
  · intro vs hlen
    obtain ⟨s', h1, h2⟩ := draw_vertexData_trace s vs
      ofPrimitiveMode.OF_PRIMITIVE_TRIANGLE_STRIP hopen (by omega)
    have hiss : issuedSince s s'
        = vertexDataCalls s vs ofPrimitiveMode.OF_PRIMITIVE_TRIANGLE_STRIP := by
      simp [issuedSince, h2, List.map_map, Function.comp_def]
    have hp := pathPieces_strip_wireframe E (fun i => transform s (vertexAt vs i)) n hn
      [CairoCall.new_path]
      [CairoCall.move_to (vertexAt vs (vs.length - 1)).x (vertexAt vs (vs.length - 1)).y,
        CairoCall.stroke] st0 (by simp [pathPieces, pathStep])
      (fun st => by simp [pathPieces, pathStep])
    rw [show [CairoCall.new_path]
        ++ wireframeCalls (fun i => transform s (vertexAt vs i))
          ofPrimitiveMode.OF_PRIMITIVE_TRIANGLE_STRIP n
        ++ [CairoCall.move_to (vertexAt vs (vs.length - 1)).x
            (vertexAt vs (vs.length - 1)).y, CairoCall.stroke]
        = issuedSince s s' from by rw [hiss, vertexDataCalls, hlen]] at hp
    exact ⟨s', h1, hp, filter_strip_pieces _ n _ hp⟩
  · intro primitive renderMode c t nrm hmode hv hi
    have hi' : primitive.indices.length ≠ 0 := by omega
    have hp := pathPieces_strip_wireframe E (fun i => transform s (primitive.vertexOfIndex i))
      n hn [CairoCall.new_path, CairoCall.new_path]
      ([CairoCall.move_to (primitive.vertexOfIndex (primitive.indices.length - 1)).x
          (primitive.vertexOfIndex (primitive.indices.length - 1)).y]
        ++ (if s.lineWidth > 0 then [CairoCall.stroke] else [])) st0
      (by simp [pathPieces, pathStep])
      (fun st => by by_cases hl : s.lineWidth > 0 <;> simp [pathPieces, pathStep, hl])
    rw [show [CairoCall.new_path, CairoCall.new_path]
        ++ wireframeCalls (fun i => transform s (primitive.vertexOfIndex i))
          ofPrimitiveMode.OF_PRIMITIVE_TRIANGLE_STRIP n
        ++ ([CairoCall.move_to (primitive.vertexOfIndex (primitive.indices.length - 1)).x
            (primitive.vertexOfIndex (primitive.indices.length - 1)).y]
          ++ (if s.lineWidth > 0 then [CairoCall.stroke] else []))
        = issuedSince s (draw_ofMesh s primitive renderMode c t nrm) from by
          rw [draw_ofMesh_issued, if_neg hv, if_neg hi', meshCalls, hmode, hi]
          simp only [List.append_assoc]] at hp
    exact ⟨hp, filter_strip_pieces _ n _ hp⟩

/-- Witness of C13: a strip of four vertices. -/
theorem strip_wireframe_edges_witness :
    ∃ s', draw_vertexData exampleRenderer [⟨0, 0, 0⟩, ⟨1, 0, 0⟩, ⟨0, 1, 0⟩, ⟨1, 1, 0⟩]
        ofPrimitiveMode.OF_PRIMITIVE_TRIANGLE_STRIP = some s' ∧
      (pathPieces exampleExt ⟨none, none⟩ (issuedSince exampleRenderer s')).filter
          (fun q => !q.isDegenerate)
        = (stripEdges (fun i => transform exampleRenderer
            (vertexAt [⟨0, 0, 0⟩, ⟨1, 0, 0⟩, ⟨0, 1, 0⟩, ⟨1, 1, 0⟩] i)) 4).filter
              (fun q => !q.isDegenerate) := by
  obtain ⟨s', h1, _, h3⟩ := (strip_wireframe_edges exampleExt exampleRenderer 4 ⟨none, none⟩
    rfl (by decide)).1 [⟨0, 0, 0⟩, ⟨1, 0, 0⟩, ⟨0, 1, 0⟩, ⟨1, 1, 0⟩] rfl
  exact ⟨s', h1, h3⟩

/-- The method scale on finite amounts: the factors it applies are not zero, an
amount of 0 being replaced by the positive `float_epsilon`; on an open surface the
matrix becomes the old one scaled by these factors, on a closed one it is
unchanged; and a non-zero determinant stays non-zero. -/
theorem scale_det_ne_zero (s : Renderer) (xAmnt yAmnt zAmnt : ℚ) :
    0 < float_epsilon ∧
    (if xAmnt = 0 then float_epsilon else xAmnt) ≠ 0 ∧
    (if yAmnt = 0 then float_epsilon else yAmnt) ≠ 0 ∧
    (s.isOpen = true → (scale s xAmnt yAmnt zAmnt).matrix
      = cairo_matrix_scale s.matrix (if xAmnt = 0 then float_epsilon else xAmnt)
          (if yAmnt = 0 then float_epsilon else yAmnt)) ∧
    (s.isOpen = false → (scale s xAmnt yAmnt zAmnt).matrix = s.matrix) ∧
    (cairo_matrix_det s.matrix ≠ 0 →
      cairo_matrix_det (scale s xAmnt yAmnt zAmnt).matrix ≠ 0) := by
  have heps : (0 : ℚ) < float_epsilon := by norm_num [float_epsilon]
  have hx : (if xAmnt = 0 then float_epsilon else xAmnt) ≠ 0 := by
    split_ifs with h
    · exact ne_of_gt heps
    · exact h
  have hy : (if yAmnt = 0 then float_epsilon else yAmnt) ≠ 0 := by
    split_ifs with h
    · exact ne_of_gt heps
    · exact h
  have hopen : s.isOpen = true → (scale s xAmnt yAmnt zAmnt).matrix
      = cairo_matrix_scale s.matrix (if xAmnt = 0 then float_epsilon else xAmnt)
          (if yAmnt = 0 then float_epsilon else yAmnt) := by
    intro ho
    cases hb : s.b3D <;> simp [scale, ho, hb]
  have hclosed : s.isOpen = false → (scale s xAmnt yAmnt zAmnt).matrix = s.matrix := by
    intro ho
    simp [scale, ho]
  refine ⟨heps, hx, hy, hopen, hclosed, fun hdet => ?_⟩
  cases ho : s.isOpen
  · rw [hclosed ho]; exact hdet
  · rw [hopen ho]
    have : cairo_matrix_det (cairo_matrix_scale s.matrix
        (if xAmnt = 0 then float_epsilon else xAmnt)
        (if yAmnt = 0 then float_epsilon else yAmnt))
        = (if xAmnt = 0 then float_epsilon else xAmnt)
          * (if yAmnt = 0 then float_epsilon else yAmnt) * cairo_matrix_det s.matrix := by
      simp only [cairo_matrix_det, cairo_matrix_scale, cairo_matrix_multiply,
        cairo_matrix_init_scale]
      ring
    rw [this]
    exact mul_ne_zero (mul_ne_zero hx hy) hdet

/-- The test of cairo on a matrix of finite entries: its determinant is not zero. -/
theorem is_invertible_x_toX (m : cairo_matrix_t) :
    cairo_matrix_is_invertible_x m.toX = true ↔ cairo_matrix_det m ≠ 0 := by
  simp [cairo_matrix_is_invertible_x, cairo_matrix_t.toX, XFloat.mul, XFloat.sub,
    cairo_matrix_det]

/-- The matrix that scale hands to cairo, for finite amounts: the one of
`cairo_matrix_scale` with the guarded factors. -/
theorem scale_matrix_x_finite (m : cairo_matrix_t) (xAmnt yAmnt : ℚ) :
    scale_matrix_x m (XFloat.finite xAmnt) (XFloat.finite yAmnt)
      = (cairo_matrix_scale m (if xAmnt = 0 then float_epsilon else xAmnt)
          (if yAmnt = 0 then float_epsilon else yAmnt)).toX := by
  by_cases hx : xAmnt = 0 <;> by_cases hy : yAmnt = 0 <;>
    simp [scale_matrix_x, scaleGuard, cairo_matrix_scale_x, cairo_matrix_multiply_x,
      cairo_matrix_t.toX, cairo_matrix_scale, cairo_matrix_multiply, cairo_matrix_init_scale,
      XFloat.mul, XFloat.add, hx, hy]

/-- The matrix that scale hands to cairo when an amount is not finite: it fails the
invertibility test, whatever the matrix of the context. -/
theorem scale_matrix_x_nonfinite (m : cairo_matrix_t) (amnt : XFloat) :
    cairo_matrix_is_invertible_x (scale_matrix_x m XFloat.nonfinite amnt) = false ∧
    cairo_matrix_is_invertible_x (scale_matrix_x m amnt XFloat.nonfinite) = false := by
  constructor <;> cases h : scaleGuard amnt <;>
    simp [cairo_matrix_is_invertible_x, scale_matrix_x, scaleGuard, cairo_matrix_scale_x,
      cairo_matrix_multiply_x, cairo_matrix_t.toX, XFloat.mul, XFloat.add, XFloat.sub, h]

/-- C14, as stated, fails: an amount that is not finite (an infinity or a NaN, such
as the ratio 5 / 0 that drawEllipse computes for a width of 0) passes the guard
of scale as it is, and the matrix handed to cairo, from the invertible identity
matrix, fails the invertibility test. -/
theorem scale_nonfinite_counterexample :
    cairo_matrix_is_invertible_x exampleRenderer.matrix.toX = true ∧
    XFloat.div 5 0 = XFloat.nonfinite ∧
    scaleGuard (XFloat.div 5 0) = XFloat.nonfinite ∧
    cairo_matrix_is_invertible_x
      (scale_matrix_x exampleRenderer.matrix (XFloat.finite 1) (XFloat.div 5 0)) = false ∧
    scaleX exampleRenderer (XFloat.finite 1) (XFloat.div 5 0) 1 = none := by
  have hd : XFloat.div 5 0 = XFloat.nonfinite := by simp [XFloat.div]
  refine ⟨?_, hd, ?_, ?_, ?_⟩
  · rw [is_invertible_x_toX]
    norm_num [cairo_matrix_det, exampleRenderer, cairo_matrix_init_identity]
  · rw [hd]; simp [scaleGuard]
  · rw [hd]; exact (scale_matrix_x_nonfinite _ _).2
  · rw [hd]; simp [scaleX, exampleRenderer]

/-- C14, amended: for finite amounts, in exact arithmetic, scale never applies a zero
factor to the 2D matrix: an x or y amount of 0 is replaced by the positive
`float_epsilon`, every other finite amount is applied as it is; the call returns,
on an open surface the matrix handed to cairo is the old one scaled by these
factors, on a closed one the matrix is unchanged; so a 2D matrix that passes the
invertibility test of cairo before scale passes it after. -/
theorem scale_finite_keeps_invertible (s : Renderer) (xAmnt yAmnt zAmnt : ℚ) :
    0 < float_epsilon ∧
    scaleGuard (XFloat.finite xAmnt)
      = XFloat.finite (if xAmnt = 0 then float_epsilon else xAmnt) ∧
    scaleGuard (XFloat.finite yAmnt)
      = XFloat.finite (if yAmnt = 0 then float_epsilon else yAmnt) ∧
    (if xAmnt = 0 then float_epsilon else xAmnt) ≠ 0 ∧
    (if yAmnt = 0 then float_epsilon else yAmnt) ≠ 0 ∧
    scaleX s (XFloat.finite xAmnt) (XFloat.finite yAmnt) zAmnt
      = some (scale s xAmnt yAmnt zAmnt) ∧
    (s.isOpen = true → (scale s xAmnt yAmnt zAmnt).matrix.toX
      = scale_matrix_x s.matrix (XFloat.finite xAmnt) (XFloat.finite yAmnt)) ∧
    (s.isOpen = false → (scale s xAmnt yAmnt zAmnt).matrix = s.matrix) ∧
    (cairo_matrix_is_invertible_x s.matrix.toX = true →
      cairo_matrix_is_invertible_x (scale s xAmnt yAmnt zAmnt).matrix.toX = true) := by
  obtain ⟨h1, h2, h3, h4, h5, h6⟩ := scale_det_ne_zero s xAmnt yAmnt zAmnt
  refine ⟨h1, ?_, ?_, h2, h3, rfl, fun ho => ?_, h5, fun hinv => ?_⟩
  · by_cases hx : xAmnt = 0 <;> simp [scaleGuard, hx]
  · by_cases hy : yAmnt = 0 <;> simp [scaleGuard, hy]
  · rw [h4 ho, scale_matrix_x_finite]
  · rw [is_invertible_x_toX] at hinv ⊢
    exact h6 hinv

/-- Witness of C14, amended: scale(0, 0, 1) on the identity matrix. -/
theorem scale_finite_keeps_invertible_witness :
    cairo_matrix_is_invertible_x (scale exampleRenderer 0 0 1).matrix.toX = true :=
  (scale_finite_keeps_invertible exampleRenderer 0 0 1).2.2.2.2.2.2.2.2
    ((is_invertible_x_toX _).mpr
      (by norm_num [cairo_matrix_det, exampleRenderer, cairo_matrix_init_identity]))

/-- C15: rotateRad leaves the 2D matrix as it is unless vecZ is 1; so rotateXRad and
rotateYRad leave the 2D matrix unchanged, and in non-3D mode leave the whole
renderer state unchanged; on an open surface rotateZRad(r) and rotateRad(r) turn
the 2D matrix into `cairo_matrix_rotate` of it by r. -/
theorem rotate_reaches_2d_only_about_z (E : Ext) (s : Renderer) (radians : ℚ) :
    (∀ vecX vecY vecZ : ℚ, vecZ ≠ 1 →
      (rotateRad E s radians vecX vecY vecZ).matrix = s.matrix) ∧
    (rotateXRad E s radians).matrix = s.matrix ∧
    (rotateYRad E s radians).matrix = s.matrix ∧
    (s.b3D = false → rotateXRad E s radians = s ∧ rotateYRad E s radians = s) ∧
    (s.isOpen = true →
      (rotateZRad E s radians).matrix = cairo_matrix_rotate E s.matrix radians ∧
      (rotateRad_radians E s radians).matrix = cairo_matrix_rotate E s.matrix radians) := by
  have h1 : ∀ vecX vecY vecZ : ℚ, vecZ ≠ 1 →
      (rotateRad E s radians vecX vecY vecZ).matrix = s.matrix := by
    intro vx vy vz hz
    cases ho : s.isOpen <;> cases hb : s.b3D <;> simp [rotateRad, ho, hb, hz]
  refine ⟨h1, h1 1 0 0 (by norm_num), h1 0 1 0 (by norm_num), fun hb => ?_, fun ho => ?_⟩
  · constructor <;> cases ho : s.isOpen <;>
      simp [rotateXRad, rotateYRad, rotateRad, ho, hb]
  · constructor <;> cases hb : s.b3D <;>
      simp [rotateRad_radians, rotateZRad, rotateRad, ho, hb]

/-- The warning changes only the count of warnings. -/
theorem warnUnsupported_eq (s : Renderer) (c t n : Bool) :
    warnUnsupported s c t n
      = { s with warnings := (warnUnsupported s c t n).warnings } := by
  unfold warnUnsupported
  split <;> rfl

/-- The state after draw(ofMesh), up to the count of warnings: that of the call with
no flag set. -/
theorem draw_ofMesh_forget_warnings (s : Renderer) (primitive : ofMesh)
    (mode : ofPolyRenderMode) (c t n : Bool) :
    { draw_ofMesh s primitive mode c t n with warnings := 0 }
      = { draw_ofMesh s primitive ofPolyRenderMode.OF_MESH_WIREFRAME false false false with
          warnings := 0 } := by
  have hw : ∀ (r : Renderer) (calls : List CairoCall) (k : Nat),
      { calls.foldl Renderer.cairo { r with warnings := k } with warnings := 0 }
        = { calls.foldl Renderer.cairo r with warnings := 0 } := by
    intro r calls k
    simp [foldl_cairo]
  have hm : ∀ (r : Renderer) (m : ofMesh) (k : Nat),
      meshCalls { r with warnings := k } m = meshCalls r m := by
    intro r m k
    simp [meshCalls, transform]
  have hfalse : ∀ r : Renderer, warnUnsupported r false false false = r := by
    intro r; simp [warnUnsupported]
  unfold draw_ofMesh
  simp only [hfalse]
  rw [warnUnsupported_eq s c t n]
  generalize (warnUnsupported s c t n).warnings = k1
  rw [warnUnsupported_eq { s with warnings := k1 } c t n]
  generalize (warnUnsupported { s with warnings := k1 } c t n).warnings = k2
  by_cases hv : primitive.vertices.length = 0
  · simp [hv]
  · by_cases hi : primitive.indices.length = 0
    · simp only [hv, hi, if_true, if_false]
      have := hw s (meshCalls s primitive.setupIndicesAuto) k2
      simpa [hm] using this
    · simp only [hv, hi, if_false]
      have := hw s (meshCalls s primitive) k1
      simpa [hm] using this

/-- C16: the calls that draw(ofMesh, mode, useColors, useTextures, useNormals) issues
are those of the wireframe (`meshCalls`), whatever the mode and the three flags;
two calls on the same state and mesh that differ in the mode and the flags leave
states that differ at most in the count of warnings logged. -/
theorem draw_ofMesh_ignores_flags (s : Renderer) (primitive : ofMesh)
    (mode mode' : ofPolyRenderMode) (c t n c' t' n' : Bool) :
    issuedSince s (draw_ofMesh s primitive mode c t n)
      = issuedSince s (draw_ofMesh s primitive mode' c' t' n') ∧
    issuedSince s (draw_ofMesh s primitive mode c t n)
      = (if primitive.vertices.length = 0 then []
        else if primitive.indices.length = 0 then meshCalls s primitive.setupIndicesAuto
        else meshCalls s primitive) ∧
    { draw_ofMesh s primitive mode c t n with warnings := 0 }
      = { draw_ofMesh s primitive mode' c' t' n' with warnings := 0 } := by
  refine ⟨?_, draw_ofMesh_issued s primitive mode c t n, ?_⟩
  · rw [draw_ofMesh_issued, draw_ofMesh_issued]
  · rw [draw_ofMesh_forget_warnings s primitive mode c t n,
      draw_ofMesh_forget_warnings s primitive mode' c' t' n']

/-- The reads of the wireframe loop stay inside the list, in every mode. -/
theorem wireframeBodyReads_lt (drawMode : ofPrimitiveMode) (n i : Nat) (hi : i < n) :
    ∀ j ∈ wireframeBodyReads drawMode i, j < n := by
  intro j hj
  cases drawMode <;> simp only [wireframeBodyReads] at hj
  · split_ifs at hj <;> simp at hj <;> omega
  all_goals (simp at hj; omega)

/-- The path calls of the wireframe methods use the vertices only at the positions
of `wireframeReads`. -/
theorem wireframeCalls_congr (get get' : Nat → Vec3) (drawMode : ofPrimitiveMode) (n : Nat)
    (h : ∀ j ∈ wireframeReads drawMode n, get j = get' j) :
    wireframeCalls get drawMode n = wireframeCalls get' drawMode n := by
  simp only [wireframeReads, List.mem_append, List.mem_flatMap] at h
  have h0 : get 0 = get' 0 := h 0 (Or.inl (Or.inl (Or.inl (by simp))))
  have hloop : ∀ i ∈ List.range' (if drawMode = ofPrimitiveMode.OF_PRIMITIVE_TRIANGLE_STRIP
      then 2 else 1) (n - (if drawMode = ofPrimitiveMode.OF_PRIMITIVE_TRIANGLE_STRIP
      then 2 else 1)), wireframeBody get drawMode i = wireframeBody get' drawMode i := by
    intro i hi
    have hr : ∀ j ∈ wireframeBodyReads drawMode i, get j = get' j :=
      fun j hj => h j (Or.inl (Or.inr ⟨i, hi, hj⟩))
    have hi0 : get i = get' i := hr i (by simp [wireframeBodyReads])
    cases drawMode <;> simp only [wireframeBody, hi0]
    · by_cases h3 : (i + 1) % 3 = 0
      · have := hr (i - 2) (by simp [wireframeBodyReads, h3])
        simp [h3, this]
      · simp [h3]
    · have := hr (i - 2) (by simp [wireframeBodyReads])
      simp [this]
  simp only [wireframeCalls, h0]
  congr 1
  · congr 1
    by_cases hs : drawMode = ofPrimitiveMode.OF_PRIMITIVE_TRIANGLE_STRIP
    · have h1 : get 1 = get' 1 := h 1 (Or.inl (Or.inl (Or.inr (by simp [hs]))))
      have h2 : get 2 = get' 2 := h 2 (Or.inl (Or.inl (Or.inr (by simp [hs]))))
      simp [hs, h1, h2]
    · simp [hs]
  · exact List.flatMap_congr hloop

/-- C17, on the code: the positions read by both wireframe methods are inside the
list of n at least 1 entries in every mode other than OF_PRIMITIVE_TRIANGLE_STRIP,
and in that mode when n is at least 3; but in strip mode a list of one entry is
read at the positions 1 and 2 (the two `line_to` calls before the loop take their
points from there), and a list of two entries at position 2. -/
theorem wireframe_reads (drawMode : ofPrimitiveMode) (n : Nat) (get : Nat → Vec3) :
    (1 ≤ n → (drawMode ≠ ofPrimitiveMode.OF_PRIMITIVE_TRIANGLE_STRIP ∨ 3 ≤ n) →
      ∀ j ∈ wireframeReads drawMode n, j < n) ∧
    wireframeCalls get ofPrimitiveMode.OF_PRIMITIVE_TRIANGLE_STRIP 1
      = [CairoCall.move_to (get 0).x (get 0).y, CairoCall.line_to (get 1).x (get 1).y,
          CairoCall.line_to (get 2).x (get 2).y] ∧
    wireframeReads ofPrimitiveMode.OF_PRIMITIVE_TRIANGLE_STRIP 1 = [0, 1, 2, 0, 0] ∧
    wireframeReads ofPrimitiveMode.OF_PRIMITIVE_TRIANGLE_STRIP 2 = [0, 1, 2, 1, 1] ∧
    ¬ (∀ j ∈ wireframeReads ofPrimitiveMode.OF_PRIMITIVE_TRIANGLE_STRIP 1, j < 1) ∧
    ¬ (∀ j ∈ wireframeReads ofPrimitiveMode.OF_PRIMITIVE_TRIANGLE_STRIP 2, j < 2) := by
  refine ⟨?_, by simp [wireframeCalls], by decide, by decide, by decide, by decide⟩
  intro hn hmode j hj
  simp only [wireframeReads, List.mem_append, List.mem_flatMap, List.mem_range'_1,
    List.mem_cons, List.mem_singleton, List.not_mem_nil, or_false] at hj
  rcases hj with ((hj | hj) | ⟨i, hi, hji⟩) | hj
  · omega
  · by_cases hs : drawMode = ofPrimitiveMode.OF_PRIMITIVE_TRIANGLE_STRIP
    · simp only [hs, if_true, List.mem_cons, List.mem_singleton, List.not_mem_nil,
        or_false] at hj
      rcases hmode with h | h
      · exact absurd hs h
      · omega
    · simp [hs] at hj
  · exact wireframeBodyReads_lt drawMode n i (by split_ifs at hi <;> omega) j hji
  · omega

end ofCairoRenderer
